import Mathlib

/-!
# Formal model of the phira-mp multiplayer server core

This file is a shallow embedding, in Lean 4, of the parts of the Go
implementation of the phira-mp session/room server that the checked claims
refer to:

* `src/common/binary.go` — ULEB128 and primitive binary readers/writers;
* `src/common/stream.go` — the frame-length decoder of the stream transport;
* `src/unnamed/part_005` (package `common`) — the wire codec: `CompactPos`,
  `Varchar`, `RoomId`, `TouchFrame`, `JudgeEvent`, `ClientCommand`;
* `src/unnamed/part_010` (package `server`) — the `Room` state machine:
  `NewRoom`, `AddUser`, `RemoveUser`, `GetUsers`, `OnUserLeave`,
  `CheckAllReady`, `CycleHost`, broadcasts;
* `src/server/session.go` — the `Touches`/`Judges` handlers;
* `src/server/user.go` — `SetSession`, `Dangle`, `HandleDangleTimeout`.

Bytes are modelled as `Nat` (well-formed bytes are `< 256`); Go machine
integers are modelled as `Nat` bit patterns with explicit `% 2^w` where Go
truncates.  Pointers to users are modelled by user ids (the Go code compares
users by `ID` everywhere the model cares about).  |, &, <<, >> on Go
unsigned integers become `|||`, `&&&`, `<<<`, `>>>` on `Nat` (with the
explicit truncation where the Go type would wrap).
-/

namespace PhiraMP

/-! ## Bit-twiddling helpers

Bridging lemmas between `Nat` bitwise operators and arithmetic, used to
reason about the Go code's `|`-composition of disjoint bit fields. -/

theorem lor_mul_pow_eq_add {a : Nat} (b k : Nat) (h : a < 2 ^ k) :
    a ||| b * 2 ^ k = a + b * 2 ^ k := by
  apply Nat.eq_of_testBit_eq
  intro i
  rw [Nat.testBit_or, Nat.testBit_to_div_mod, Nat.testBit_to_div_mod,
    Nat.testBit_to_div_mod]
  rcases Nat.lt_or_ge i k with hik | hik
  · have hsplit : b * 2 ^ k = b * 2 ^ (k - i) * 2 ^ i := by
      rw [Nat.mul_assoc, ← Nat.pow_add, Nat.sub_add_cancel (Nat.le_of_lt hik)]
    have hdvd : b * 2 ^ k / 2 ^ i = b * 2 ^ (k - i) := by
      rw [hsplit, Nat.mul_div_cancel _ (Nat.two_pow_pos i)]
    have hadd : (a + b * 2 ^ k) / 2 ^ i = a / 2 ^ i + b * 2 ^ (k - i) := by
      rw [hsplit, Nat.add_mul_div_right _ _ (Nat.two_pow_pos i)]
    have heven : b * 2 ^ (k - i) % 2 = 0 := by
      have h2 : (2 : Nat) ∣ 2 ^ (k - i) := dvd_pow_self 2 (by omega)
      exact Nat.mod_eq_zero_of_dvd (h2.mul_left b)
    rw [hadd, hdvd]
    have : (a / 2 ^ i + b * 2 ^ (k - i)) % 2 = a / 2 ^ i % 2 := by omega
    rw [this]
    rcases Nat.mod_two_eq_zero_or_one (a / 2 ^ i) with hm | hm <;> simp [hm, heven]
  · have ha0 : a / 2 ^ i = 0 :=
      Nat.div_eq_of_lt (lt_of_lt_of_le h (Nat.pow_le_pow_right (by omega) hik))
    have hik2 : 2 ^ i = 2 ^ k * 2 ^ (i - k) := by
      rw [← Nat.pow_add, Nat.add_sub_cancel' hik]
    have h1 : (a + b * 2 ^ k) / 2 ^ i = b / 2 ^ (i - k) := by
      rw [hik2, ← Nat.div_div_eq_div_mul, Nat.add_mul_div_right _ _ (Nat.two_pow_pos k),
        Nat.div_eq_of_lt h, Nat.zero_add]
    have h2 : b * 2 ^ k / 2 ^ i = b / 2 ^ (i - k) := by
      rw [hik2, ← Nat.div_div_eq_div_mul, Nat.mul_div_cancel _ (Nat.two_pow_pos k)]
    rw [h1, h2]
    simp [ha0]

theorem lor_pow_mul_eq_add {a : Nat} (b k : Nat) (h : a < 2 ^ k) :
    b * 2 ^ k ||| a = b * 2 ^ k + a := by
  rw [Nat.lor_comm, lor_mul_pow_eq_add b k h, Nat.add_comm]

set_option maxRecDepth 4096 in
/-- Continuation-bit test on a well-formed (8-bit) byte. -/
theorem and_128_eq (b : Nat) (hb : b < 256) :
    b &&& 128 = if 128 ≤ b then 128 else 0 := by
  revert hb
  revert b
  decide

/-! ## ULEB128 (`src/common/binary.go`)

`BinaryWriter.Uleb` emits the value 7 bits at a time, least significant
first, setting bit 7 of every byte except the last.  `BinaryReader.Uleb`
accumulates `uint64(b & 0x7f) << shift` with `result |= ...` on a Go
`uint64`, so contributions are truncated to 64 bits; it stops at the first
byte without the continuation bit and has no shift bound.  Readers are
state-passing functions `List Nat → Option (α × List Nat)` returning the
decoded value and the unconsumed tail (Go's `BinaryReader` advances `pos`
over a byte slice; `none` is a returned `error`). -/

def writeUleb (v : Nat) : List Nat :=
  if v < 128 then [v % 128]
  else (v % 128 + 128) :: writeUleb (v / 128)
termination_by v
decreasing_by exact Nat.div_lt_self (by omega) (by omega)

def readUlebAux (acc shift : Nat) : List Nat → Option (Nat × List Nat)
  | [] => none
  | b :: rest =>
    let acc2 := acc ||| (b &&& 127) * 2 ^ shift % 2 ^ 64
    if b &&& 128 = 0 then some (acc2, rest)
    else readUlebAux acc2 (shift + 7) rest

def readUleb (s : List Nat) : Option (Nat × List Nat) :=
  readUlebAux 0 0 s

theorem readUlebAux_writeUleb (n : Nat) : ∀ (acc shift : Nat) (rest : List Nat),
    acc < 2 ^ shift → acc + n * 2 ^ shift < 2 ^ 64 →
    readUlebAux acc shift (writeUleb n ++ rest) = some (acc + n * 2 ^ shift, rest) := by
  induction n using Nat.strong_induction_on with
  | _ n ih =>
    intro acc shift rest hacc hlt
    rw [writeUleb]
    by_cases h : n < 128
    · have hmod : n % 128 = n := Nat.mod_eq_of_lt h
      simp only [if_pos h, hmod, List.cons_append, List.nil_append, readUlebAux]
      have h127 : n &&& 127 = n := by
        have : n &&& 127 = n % 128 := Nat.and_pow_two_sub_one_eq_mod n 7
        rw [this, hmod]
      have h128 : n &&& 128 = 0 := by
        rw [and_128_eq n (by omega)]
        simp [Nat.not_le.mpr h]
      have htr : n * 2 ^ shift % 2 ^ 64 = n * 2 ^ shift := by
        apply Nat.mod_eq_of_lt
        omega
      simp only [h127, h128, if_pos rfl, htr, lor_mul_pow_eq_add n shift hacc,
        if_true]
    · simp only [if_neg h, List.cons_append, readUlebAux]
      have hb : n % 128 + 128 &&& 127 = n % 128 := by
        have h1 : n % 128 + 128 &&& 127 = (n % 128 + 128) % 128 :=
          Nat.and_pow_two_sub_one_eq_mod _ 7
        rw [h1, Nat.add_mod_right, Nat.mod_mod_of_dvd _ (by norm_num)]
      have hcont : n % 128 + 128 &&& 128 ≠ 0 := by
        rw [and_128_eq _ (by omega)]
        simp
      have hlow : n % 128 * 2 ^ shift ≤ n * 2 ^ shift :=
        Nat.mul_le_mul_right _ (Nat.mod_le n 128)
      have htr : n % 128 * 2 ^ shift % 2 ^ 64 = n % 128 * 2 ^ shift := by
        apply Nat.mod_eq_of_lt
        omega
      simp only [hb, if_neg hcont, htr, lor_mul_pow_eq_add _ shift hacc]
      have hrec := ih (n / 128) (Nat.div_lt_self (by omega) (by omega))
        (acc + n % 128 * 2 ^ shift) (shift + 7) rest
      have hsum : acc + n % 128 * 2 ^ shift + n / 128 * 2 ^ (shift + 7)
          = acc + n * 2 ^ shift := by
        have : n / 128 * 2 ^ (shift + 7) = n / 128 * 128 * 2 ^ shift := by
          rw [Nat.pow_add]
          ring
        rw [this, Nat.add_assoc, ← Nat.add_mul]
        congr 2
        omega
      rw [hrec (by
            have : acc + n % 128 * 2 ^ shift < 2 ^ shift + 127 * 2 ^ shift := by
              have : n % 128 * 2 ^ shift ≤ 127 * 2 ^ shift :=
                Nat.mul_le_mul_right _ (by omega)
              omega
            calc acc + n % 128 * 2 ^ shift < 2 ^ shift + 127 * 2 ^ shift := this
              _ = 2 ^ (shift + 7) := by rw [Nat.pow_add]; ring)
          (by rw [hsum]; exact hlt), hsum]

theorem readUleb_writeUleb (n : Nat) (rest : List Nat) (hn : n < 2 ^ 64) :
    readUleb (writeUleb n ++ rest) = some (n, rest) := by
  have := readUlebAux_writeUleb n 0 0 rest (by norm_num) (by simpa using hn)
  simpa using this

/-! ## Frame-length decoding (`src/common/stream.go`, `Stream.readData`)

The stream transport reads a frame as a ULEB128 length followed by that many
payload bytes.  Unlike `BinaryReader.Uleb`, this loop accumulates into a Go
`uint32` and rejects the stream once the shift exceeds 32 bits
(`if pos > 32 { return nil, fmt.Errorf("invalid length") }` after
`pos += 7`).  Only the length loop is modelled; `none` is a returned
error. -/

def readFrameLenAux (length pos : Nat) : List Nat → Option (Nat × List Nat)
  | [] => none
  | b :: rest =>
    let length2 := length ||| (b &&& 127) * 2 ^ pos % 2 ^ 32
    if b &&& 128 = 0 then some (length2, rest)
    else if pos + 7 > 32 then none
    else readFrameLenAux length2 (pos + 7) rest

def readFrameLen (s : List Nat) : Option (Nat × List Nat) :=
  readFrameLenAux 0 0 s

/-! ## Primitive readers and writers (`src/common/binary.go`)

State-passing models of `BinaryReader.Byte`, `BinaryReader.Take` and the
fixed-width little-endian helpers.  `WriteByte` appends `byte(v)`; a Go
`byte(...)` conversion is `% 256`, but the writers below are only applied
to values their Go parameter type already bounds, so the writers emit the
value's low bytes exactly as `encoding/binary.PutUintNN` does. -/

def readByte : List Nat → Option (Nat × List Nat)
  | [] => none
  | b :: rest => some (b, rest)

def take (n : Nat) (s : List Nat) : Option (List Nat × List Nat) :=
  if n ≤ s.length then some (s.take n, s.drop n) else none

def writeUint8 (v : Nat) : List Nat := [v % 256]

def readUint8 (s : List Nat) : Option (Nat × List Nat) := readByte s

def writeUint16 (v : Nat) : List Nat := [v % 256, v / 256 % 256]

def readUint16 (s : List Nat) : Option (Nat × List Nat) :=
  match take 2 s with
  | none => none
  | some (d, rest) => some (d.getD 0 0 + 256 * d.getD 1 0, rest)

def writeUint32 (v : Nat) : List Nat :=
  [v % 256, v / 256 % 256, v / 65536 % 256, v / 16777216 % 256]

def readUint32 (s : List Nat) : Option (Nat × List Nat) :=
  match take 4 s with
  | none => none
  | some (d, rest) =>
    some (d.getD 0 0 + 256 * d.getD 1 0 + 65536 * d.getD 2 0
      + 16777216 * d.getD 3 0, rest)

def writeBool (v : Bool) : List Nat := [if v then 1 else 0]

def readBool (s : List Nat) : Option (Bool × List Nat) :=
  match readByte s with
  | none => none
  | some (b, rest) => some (b == 1, rest)

theorem readByte_write (b : Nat) (rest : List Nat) :
    readByte (b :: rest) = some (b, rest) := rfl

theorem take_append (d rest : List Nat) :
    take d.length (d ++ rest) = some (d, rest) := by
  simp [take]

theorem readUint8_writeUint8 (v : Nat) (rest : List Nat) (h : v < 256) :
    readUint8 (writeUint8 v ++ rest) = some (v, rest) := by
  simp [readUint8, writeUint8, readByte, Nat.mod_eq_of_lt h]

theorem readUint16_writeUint16 (v : Nat) (rest : List Nat) (h : v < 65536) :
    readUint16 (writeUint16 v ++ rest) = some (v, rest) := by
  have ht : take 2 (v % 256 :: v / 256 % 256 :: rest)
      = some ([v % 256, v / 256 % 256], rest) := by
    simp [take]
  simp only [writeUint16, List.cons_append, List.nil_append, readUint16, ht]
  have hv : v % 256 + 256 * (v / 256 % 256) = v := by omega
  simp [hv]

theorem readUint32_writeUint32 (v : Nat) (rest : List Nat) (h : v < 4294967296) :
    readUint32 (writeUint32 v ++ rest) = some (v, rest) := by
  have ht : take 4 (v % 256 :: v / 256 % 256 :: v / 65536 % 256
        :: v / 16777216 % 256 :: rest)
      = some ([v % 256, v / 256 % 256, v / 65536 % 256, v / 16777216 % 256], rest) := by
    simp [take]
  simp only [writeUint32, List.cons_append, List.nil_append, readUint32, ht]
  have hv : v % 256 + 256 * (v / 256 % 256) + 65536 * (v / 65536 % 256)
      + 16777216 * (v / 16777216 % 256) = v := by omega
  simp [hv]

theorem readBool_writeBool (v : Bool) (rest : List Nat) :
    readBool (writeBool v ++ rest) = some (v, rest) := by
  cases v <;> simp [readBool, writeBool, readByte]

/-! ## Varchar and RoomId (`src/unnamed/part_005`, package `common`)

`Varchar.ReadBinary` reads a ULEB128 length and rejects `int(length) >
v.MaxLen`; the ULEB value is a `uint64` and the comparison happens after a
conversion to `int`, so a declared length `≥ 2^63` wraps negative, passes
the comparison, and the subsequent `Take` with a negative count panics on
the slice bound — modelled as a decode failure.  `Varchar.WriteBinary`
writes the string unconditionally (`WriteString`, no length check).

`NewRoomId` rejects the empty string and any character outside
`[A-Za-z0-9_-]`; it has no length check.  `RoomId.ReadBinary` reads a
`Varchar` with `MaxLen: 20` and then validates through `NewRoomId`.
Strings are byte lists. -/

def writeString (v : List Nat) : List Nat :=
  writeUleb v.length ++ v

/-- Go's `int(x)` conversion of a `uint64`, on a 64-bit platform. -/
def intOfUint64 (n : Nat) : Int :=
  if n < 2 ^ 63 then (n : Int) else (n : Int) - 2 ^ 64

def readVarchar (maxLen : Nat) (s : List Nat) : Option (List Nat × List Nat) :=
  match readUleb s with
  | none => none
  | some (length, rest) =>
    if intOfUint64 length > maxLen then none
    else if intOfUint64 length < 0 then none
    else take length rest

def writeVarchar (v : List Nat) : List Nat := writeString v

/-- `RoomId` holds the raw byte string of the id. -/
structure RoomId where
  value : List Nat
deriving DecidableEq, Repr

def validRoomChar (c : Nat) : Bool :=
  c == 45 || c == 95 || (97 ≤ c && c ≤ 122) || (65 ≤ c && c ≤ 90)
    || (48 ≤ c && c ≤ 57)

def NewRoomId (value : List Nat) : Option RoomId :=
  if value = [] then none
  else if value.all validRoomChar then some ⟨value⟩
  else none

def readRoomId (s : List Nat) : Option (RoomId × List Nat) :=
  match readVarchar 20 s with
  | none => none
  | some (v, rest) =>
    match NewRoomId v with
    | none => none
    | some roomId => some (roomId, rest)

def writeRoomId (r : RoomId) : List Nat := writeVarchar r.value

theorem readVarchar_writeVarchar (maxLen : Nat) (v : List Nat) (rest : List Nat)
    (hlen : v.length ≤ maxLen) (hmax : maxLen < 2 ^ 63) :
    readVarchar maxLen (writeVarchar v ++ rest) = some (v, rest) := by
  have hv : v.length < 2 ^ 64 := by omega
  have hint : intOfUint64 v.length = (v.length : Int) := by
    rw [intOfUint64, if_pos (by omega)]
  simp only [readVarchar, writeVarchar, writeString, List.append_assoc,
    readUleb_writeUleb v.length (v ++ rest) hv, hint]
  rw [if_neg (by omega), if_neg (by omega)]
  exact take_append v rest

theorem readRoomId_writeRoomId (r : RoomId) (rest : List Nat)
    (hne : r.value ≠ []) (hlen : r.value.length ≤ 20)
    (hchars : r.value.all validRoomChar) :
    readRoomId (writeRoomId r ++ rest) = some (r, rest) := by
  simp only [readRoomId, writeRoomId,
    readVarchar_writeVarchar 20 r.value rest hlen (by norm_num)]
  simp [NewRoomId, hne, hchars]

/-! ## CompactPos, TouchFrame, JudgeEvent (`src/unnamed/part_005`)

`CompactPos` stores the two IEEE-754 half-precision bit patterns (`uint16`),
x then y.  `TouchFrame` is an `f32` time (stored as its bit pattern), a
ULEB128 count and that many `{id int8, pos CompactPos}` points; the `int8`
id travels as its single byte.  `JudgeEvent.ReadBinary` casts the judgement
byte without a range check.  `f32` values travel as their `uint32` bit
patterns (`math.Float32bits` / `math.Float32frombits`). -/

structure CompactPos where
  x : Nat
  y : Nat
deriving DecidableEq, Repr

def writeFloat32 (v : Nat) : List Nat := writeUint32 v

def readFloat32 (s : List Nat) : Option (Nat × List Nat) := readUint32 s

def writeInt8 (v : Nat) : List Nat := [v % 256]

def readInt8 (s : List Nat) : Option (Nat × List Nat) := readByte s

def writeInt32 (v : Nat) : List Nat := writeUint32 v

def readInt32 (s : List Nat) : Option (Nat × List Nat) := readUint32 s

def readCompactPos (s : List Nat) : Option (CompactPos × List Nat) :=
  match readUint16 s with
  | none => none
  | some (x, s1) =>
    match readUint16 s1 with
    | none => none
    | some (y, s2) => some (⟨x, y⟩, s2)

def writeCompactPos (p : CompactPos) : List Nat :=
  writeUint16 p.x ++ writeUint16 p.y

structure TouchPoint where
  id : Nat
  pos : CompactPos
deriving DecidableEq, Repr

structure TouchFrame where
  time : Nat
  points : List TouchPoint
deriving DecidableEq, Repr

structure JudgeEvent where
  time : Nat
  lineId : Nat
  noteId : Nat
  judgement : Nat
deriving DecidableEq, Repr

/-- Read `n` consecutive values with the element reader `rd`, as the decoding
loops `for i := uint64(0); i < length; i++` do. -/
def readCount {α : Type} (rd : List Nat → Option (α × List Nat)) :
    Nat → List Nat → Option (List α × List Nat)
  | 0, s => some ([], s)
  | n + 1, s =>
    match rd s with
    | none => none
    | some (a, s1) =>
      match readCount rd n s1 with
      | none => none
      | some (as, s2) => some (a :: as, s2)

def writeAll {α : Type} (wr : α → List Nat) (l : List α) : List Nat :=
  (l.map wr).flatten

def readTouchPoint (s : List Nat) : Option (TouchPoint × List Nat) :=
  match readInt8 s with
  | none => none
  | some (id, s1) =>
    match readCompactPos s1 with
    | none => none
    | some (pos, s2) => some (⟨id, pos⟩, s2)

def writeTouchPoint (p : TouchPoint) : List Nat :=
  writeInt8 p.id ++ writeCompactPos p.pos

def readTouchFrame (s : List Nat) : Option (TouchFrame × List Nat) :=
  match readFloat32 s with
  | none => none
  | some (time, s1) =>
    match readUleb s1 with
    | none => none
    | some (length, s2) =>
      match readCount readTouchPoint length s2 with
      | none => none
      | some (points, s3) => some (⟨time, points⟩, s3)

def writeTouchFrame (t : TouchFrame) : List Nat :=
  writeFloat32 t.time ++ writeUleb t.points.length ++ writeAll writeTouchPoint t.points

def readJudgeEvent (s : List Nat) : Option (JudgeEvent × List Nat) :=
  match readFloat32 s with
  | none => none
  | some (time, s1) =>
    match readUint32 s1 with
    | none => none
    | some (lineId, s2) =>
      match readUint32 s2 with
      | none => none
      | some (noteId, s3) =>
        match readUint8 s3 with
        | none => none
        | some (judgement, s4) => some (⟨time, lineId, noteId, judgement⟩, s4)

def writeJudgeEvent (j : JudgeEvent) : List Nat :=
  writeFloat32 j.time ++ writeUint32 j.lineId ++ writeUint32 j.noteId
    ++ writeUint8 j.judgement

theorem readCount_writeAll {α : Type} (rd : List Nat → Option (α × List Nat))
    (wr : α → List Nat) (l : List α) (rest : List Nat)
    (h : ∀ a ∈ l, ∀ s, rd (wr a ++ s) = some (a, s)) :
    readCount rd l.length (writeAll wr l ++ rest) = some (l, rest) := by
  induction l with
  | nil => simp [readCount, writeAll]
  | cons a l ih =>
    have ih2 := ih (fun b hb s => h b (by simp [hb]) s)
    simp only [writeAll] at ih2
    simp only [writeAll, List.map_cons, List.flatten_cons, List.length_cons,
      List.append_assoc, readCount]
    rw [h a (by simp) _]
    dsimp only
    rw [ih2]

theorem readCompactPos_write (p : CompactPos) (rest : List Nat)
    (hx : p.x < 65536) (hy : p.y < 65536) :
    readCompactPos (writeCompactPos p ++ rest) = some (p, rest) := by
  simp only [readCompactPos, writeCompactPos, List.append_assoc,
    readUint16_writeUint16 p.x _ hx, readUint16_writeUint16 p.y _ hy]

theorem readTouchPoint_write (p : TouchPoint) (rest : List Nat)
    (hid : p.id < 256) (hx : p.pos.x < 65536) (hy : p.pos.y < 65536) :
    readTouchPoint (writeTouchPoint p ++ rest) = some (p, rest) := by
  have h8 : readInt8 (p.id % 256 :: (writeCompactPos p.pos ++ rest))
      = some (p.id, writeCompactPos p.pos ++ rest) := by
    simp [readInt8, readByte, Nat.mod_eq_of_lt hid]
  simp only [readTouchPoint, writeTouchPoint, writeInt8, List.cons_append,
    List.nil_append, h8, readCompactPos_write p.pos rest hx hy]

def TouchFrame.wf (t : TouchFrame) : Prop :=
  t.time < 4294967296 ∧ t.points.length < 2 ^ 64 ∧
    ∀ p ∈ t.points, p.id < 256 ∧ p.pos.x < 65536 ∧ p.pos.y < 65536

def JudgeEvent.wf (j : JudgeEvent) : Prop :=
  j.time < 4294967296 ∧ j.lineId < 4294967296 ∧ j.noteId < 4294967296 ∧
    j.judgement < 256

theorem readTouchFrame_write (t : TouchFrame) (rest : List Nat) (hwf : t.wf) :
    readTouchFrame (writeTouchFrame t ++ rest) = some (t, rest) := by
  obtain ⟨htime, hlen, hpts⟩ := hwf
  simp only [readTouchFrame, writeTouchFrame, List.append_assoc,
    readFloat32, writeFloat32, readUint32_writeUint32 t.time _ htime,
    readUleb_writeUleb t.points.length _ hlen,
    readCount_writeAll readTouchPoint writeTouchPoint t.points rest
      (fun p hp s => readTouchPoint_write p s (hpts p hp).1 (hpts p hp).2.1
        (hpts p hp).2.2)]

theorem readJudgeEvent_write (j : JudgeEvent) (rest : List Nat) (hwf : j.wf) :
    readJudgeEvent (writeJudgeEvent j ++ rest) = some (j, rest) := by
  obtain ⟨h1, h2, h3, h4⟩ := hwf
  simp only [readJudgeEvent, writeJudgeEvent, List.append_assoc,
    readFloat32, writeFloat32, readUint32_writeUint32 j.time _ h1,
    readUint32_writeUint32 j.lineId _ h2, readUint32_writeUint32 j.noteId _ h3,
    readUint8_writeUint8 j.judgement _ h4]

/-! ## ClientCommand (`src/unnamed/part_005`)

The sixteen client command variants, tags 0–15 in declaration order.
`ClientCommand.ReadBinary` dispatches on the tag byte and fails on unknown
tags; `ClientCommand.WriteBinary` writes the tag then the body.  The Go
struct carries one field per possible payload and only the fields of the
decoded variant are set; the inductive below carries exactly the payload of
each variant, which is what command equality compares. -/

inductive ClientCommand where
  | ping
  | authenticate (token : List Nat)
  | chat (message : List Nat)
  | touches (frames : List TouchFrame)
  | judges (events : List JudgeEvent)
  | createRoom (roomId : RoomId)
  | joinRoom (roomId : RoomId) (monitor : Bool)
  | leaveRoom
  | lockRoom (lock : Bool)
  | cycleRoom (cycle : Bool)
  | selectChart (chartId : Nat)
  | requestStart
  | ready
  | cancelReady
  | played (recordId : Nat)
  | abort
deriving DecidableEq, Repr

def writeClientCommand : ClientCommand → List Nat
  | .ping => writeUint8 0
  | .authenticate token => writeUint8 1 ++ writeVarchar token
  | .chat message => writeUint8 2 ++ writeVarchar message
  | .touches frames =>
    writeUint8 3 ++ writeUleb frames.length ++ writeAll writeTouchFrame frames
  | .judges events =>
    writeUint8 4 ++ writeUleb events.length ++ writeAll writeJudgeEvent events
  | .createRoom roomId => writeUint8 5 ++ writeRoomId roomId
  | .joinRoom roomId monitor => writeUint8 6 ++ writeRoomId roomId ++ writeBool monitor
  | .leaveRoom => writeUint8 7
  | .lockRoom lock => writeUint8 8 ++ writeBool lock
  | .cycleRoom cycle => writeUint8 9 ++ writeBool cycle
  | .selectChart chartId => writeUint8 10 ++ writeInt32 chartId
  | .requestStart => writeUint8 11
  | .ready => writeUint8 12
  | .cancelReady => writeUint8 13
  | .played recordId => writeUint8 14 ++ writeInt32 recordId
  | .abort => writeUint8 15

def readClientCommand (s : List Nat) : Option (ClientCommand × List Nat) :=
  match readUint8 s with
  | none => none
  | some (t, s1) =>
    if t = 0 then some (.ping, s1)
    else if t = 1 then
      match readVarchar 32 s1 with
      | none => none
      | some (v, s2) => some (.authenticate v, s2)
    else if t = 2 then
      match readVarchar 200 s1 with
      | none => none
      | some (v, s2) => some (.chat v, s2)
    else if t = 3 then
      match readUleb s1 with
      | none => none
      | some (length, s2) =>
        match readCount readTouchFrame length s2 with
        | none => none
        | some (frames, s3) => some (.touches frames, s3)
    else if t = 4 then
      match readUleb s1 with
      | none => none
      | some (length, s2) =>
        match readCount readJudgeEvent length s2 with
        | none => none
        | some (events, s3) => some (.judges events, s3)
    else if t = 5 then
      match readRoomId s1 with
      | none => none
      | some (roomId, s2) => some (.createRoom roomId, s2)
    else if t = 6 then
      match readRoomId s1 with
      | none => none
      | some (roomId, s2) =>
        match readBool s2 with
        | none => none
        | some (monitor, s3) => some (.joinRoom roomId monitor, s3)
    else if t = 7 then some (.leaveRoom, s1)
    else if t = 8 then
      match readBool s1 with
      | none => none
      | some (lock, s2) => some (.lockRoom lock, s2)
    else if t = 9 then
      match readBool s1 with
      | none => none
      | some (cycle, s2) => some (.cycleRoom cycle, s2)
    else if t = 10 then
      match readInt32 s1 with
      | none => none
      | some (id, s2) => some (.selectChart id, s2)
    else if t = 11 then some (.requestStart, s1)
    else if t = 12 then some (.ready, s1)
    else if t = 13 then some (.cancelReady, s1)
    else if t = 14 then
      match readInt32 s1 with
      | none => none
      | some (id, s2) => some (.played id, s2)
    else if t = 15 then some (.abort, s1)
    else none

/-- A valid `RoomId` (`NewRoomId`'s charset/emptiness rules plus the wire's
20-byte bound). -/
def RoomId.wf (r : RoomId) : Prop :=
  r.value ≠ [] ∧ r.value.length ≤ 20 ∧ r.value.all validRoomChar

/-- Payloads the Go encoder can be handed: field values within their Go
types' ranges, the token within `Varchar(32)`, the chat message within
`Varchar(200)` and a valid `RoomId`. -/
def ClientCommand.wf : ClientCommand → Prop
  | .authenticate token => token.length ≤ 32
  | .chat message => message.length ≤ 200
  | .touches frames => frames.length < 2 ^ 64 ∧ ∀ f ∈ frames, f.wf
  | .judges events => events.length < 2 ^ 64 ∧ ∀ e ∈ events, e.wf
  | .createRoom roomId => roomId.wf
  | .joinRoom roomId _ => roomId.wf
  | .selectChart chartId => chartId < 4294967296
  | .played recordId => recordId < 4294967296
  | _ => True

theorem readUint8_tag (t : Nat) (rest : List Nat) (h : t < 256) :
    readUint8 (writeUint8 t ++ rest) = some (t, rest) :=
  readUint8_writeUint8 t rest h

theorem readClientCommand_writeClientCommand (c : ClientCommand) (rest : List Nat)
    (hwf : c.wf) :
    readClientCommand (writeClientCommand c ++ rest) = some (c, rest) := by
  cases c with
  | ping =>
    simp only [writeClientCommand, readClientCommand,
      readUint8_tag 0 rest (by norm_num)]
    norm_num
  | authenticate token =>
    simp only [writeClientCommand, List.append_assoc, readClientCommand,
      readUint8_tag 1 _ (by norm_num)]
    norm_num
    rw [readVarchar_writeVarchar 32 token rest hwf (by norm_num)]
  | chat message =>
    simp only [writeClientCommand, List.append_assoc, readClientCommand,
      readUint8_tag 2 _ (by norm_num)]
    norm_num
    rw [readVarchar_writeVarchar 200 message rest hwf (by norm_num)]
  | touches frames =>
    obtain ⟨hlen, hframes⟩ := hwf
    simp only [writeClientCommand, List.append_assoc, readClientCommand,
      readUint8_tag 3 _ (by norm_num)]
    norm_num
    rw [readUleb_writeUleb frames.length _ hlen]
    dsimp only
    rw [readCount_writeAll readTouchFrame writeTouchFrame frames rest
      (fun f hf s => readTouchFrame_write f s (hframes f hf))]
  | judges events =>
    obtain ⟨hlen, hevents⟩ := hwf
    simp only [writeClientCommand, List.append_assoc, readClientCommand,
      readUint8_tag 4 _ (by norm_num)]
    norm_num
    rw [readUleb_writeUleb events.length _ hlen]
    dsimp only
    rw [readCount_writeAll readJudgeEvent writeJudgeEvent events rest
      (fun e he s => readJudgeEvent_write e s (hevents e he))]
  | createRoom roomId =>
    obtain ⟨hne, hlen, hchars⟩ := hwf
    simp only [writeClientCommand, List.append_assoc, readClientCommand,
      readUint8_tag 5 _ (by norm_num)]
    norm_num
    rw [readRoomId_writeRoomId roomId rest hne hlen hchars]
  | joinRoom roomId monitor =>
    obtain ⟨hne, hlen, hchars⟩ := hwf
    simp only [writeClientCommand, List.append_assoc, readClientCommand,
      readUint8_tag 6 _ (by norm_num)]
    norm_num
    rw [readRoomId_writeRoomId roomId _ hne hlen hchars]
    dsimp only
    rw [readBool_writeBool monitor rest]
  | leaveRoom =>
    simp only [writeClientCommand, readClientCommand,
      readUint8_tag 7 rest (by norm_num)]
    norm_num
  | lockRoom lock =>
    simp only [writeClientCommand, List.append_assoc, readClientCommand,
      readUint8_tag 8 _ (by norm_num)]
    norm_num
    rw [readBool_writeBool lock rest]
  | cycleRoom cycle =>
    simp only [writeClientCommand, List.append_assoc, readClientCommand,
      readUint8_tag 9 _ (by norm_num)]
    norm_num
    rw [readBool_writeBool cycle rest]
  | selectChart chartId =>
    simp only [writeClientCommand, List.append_assoc, readClientCommand,
      readUint8_tag 10 _ (by norm_num)]
    norm_num
    rw [show readInt32 (writeInt32 chartId ++ rest) = some (chartId, rest) from
      readUint32_writeUint32 chartId rest hwf]
  | requestStart =>
    simp only [writeClientCommand, readClientCommand,
      readUint8_tag 11 rest (by norm_num)]
    norm_num
  | ready =>
    simp only [writeClientCommand, readClientCommand,
      readUint8_tag 12 rest (by norm_num)]
    norm_num
  | cancelReady =>
    simp only [writeClientCommand, readClientCommand,
      readUint8_tag 13 rest (by norm_num)]
    norm_num
  | played recordId =>
    simp only [writeClientCommand, List.append_assoc, readClientCommand,
      readUint8_tag 14 _ (by norm_num)]
    norm_num
    rw [show readInt32 (writeInt32 recordId ++ rest) = some (recordId, rest) from
      readUint32_writeUint32 recordId rest hwf]
  | abort =>
    simp only [writeClientCommand, readClientCommand,
      readUint8_tag 15 rest (by norm_num)]
    norm_num

/-- C3: Wire-codec round trip: for every `ClientCommand` with one of the 16
defined tags and a payload the encoder can produce (token at most 32 bytes,
chat message at most 200 bytes, valid `RoomId`), decoding the byte sequence
produced by encoding the command yields a command equal to the original. -/
theorem C3_client_command_round_trip (c : ClientCommand) (hwf : c.wf) :
    readClientCommand (writeClientCommand c) = some (c, []) := by
  have h := readClientCommand_writeClientCommand c [] hwf
  simpa using h

theorem C3_client_command_round_trip_witness :
    (ClientCommand.joinRoom ⟨[97, 98, 99]⟩ true).wf ∧
      readClientCommand (writeClientCommand (.joinRoom ⟨[97, 98, 99]⟩ true))
        = some (.joinRoom ⟨[97, 98, 99]⟩ true, []) :=
  ⟨by constructor <;> simp [validRoomChar],
    C3_client_command_round_trip _ (by constructor <;> simp [validRoomChar])⟩

/-- C7: ULEB128 decode bound: the u32-domain ULEB128 decoder (the
frame-length loop of `Stream.readData`) returns an error on every input
stream whose continuation bytes extend the accumulated shift beyond 32 bits
(five consecutive bytes with the continuation bit set), rather than
truncating or continuing to consume bytes. -/
theorem C7_uleb_u32_shift_bound (b0 b1 b2 b3 b4 : Nat) (rest : List Nat)
    (h0 : b0 &&& 128 ≠ 0) (h1 : b1 &&& 128 ≠ 0) (h2 : b2 &&& 128 ≠ 0)
    (h3 : b3 &&& 128 ≠ 0) (h4 : b4 &&& 128 ≠ 0) :
    readFrameLen (b0 :: b1 :: b2 :: b3 :: b4 :: rest) = none := by
  simp [readFrameLen, readFrameLenAux, h0, h1, h2, h3, h4]

theorem C7_uleb_u32_shift_bound_witness :
    readFrameLen [128, 128, 128, 128, 128] = none :=
  C7_uleb_u32_shift_bound 128 128 128 128 128 [] (by decide) (by decide)
    (by decide) (by decide) (by decide)

theorem readUlebAux_lt (s : List Nat) : ∀ (acc shift L : Nat) (rest : List Nat),
    acc < 2 ^ 64 → readUlebAux acc shift s = some (L, rest) → L < 2 ^ 64 := by
  induction s with
  | nil => intro acc shift L rest hacc h; simp [readUlebAux] at h
  | cons b s ih =>
    intro acc shift L rest hacc h
    simp only [readUlebAux] at h
    have hlt : acc ||| (b &&& 127) * 2 ^ shift % 2 ^ 64 < 2 ^ 64 :=
      Nat.or_lt_two_pow hacc (Nat.mod_lt _ (by norm_num))
    by_cases hb : b &&& 128 = 0
    · rw [if_pos hb] at h
      cases h
      exact hlt
    · rw [if_neg hb] at h
      exact ih _ _ _ _ hlt h

theorem readUleb_lt_two_pow_64 (s : List Nat) (L : Nat) (rest : List Nat)
    (h : readUleb s = some (L, rest)) : L < 2 ^ 64 :=
  readUlebAux_lt s 0 0 L rest (by norm_num) h

/-- C8 (counterexample): the claim says a `RoomId` longer than 20 bytes is
rejected on construction, but `NewRoomId` accepts a 21-byte identifier: it
validates only non-emptiness and the character set. -/
theorem C8_construction_length_counterexample :
    20 < (List.replicate 21 97).length ∧
      NewRoomId (List.replicate 21 97) = some ⟨List.replicate 21 97⟩ := by
  constructor
  · decide
  · decide

/-- C8 (amended): decoding a `Varchar(max)` field fails whenever the declared
ULEB128 length exceeds `max` — in particular a Chat message over 200 bytes and
an Authenticate token over 32 bytes are rejected at decode — and a `RoomId`
that is empty, longer than 20 bytes, or containing a character outside
`[A-Za-z0-9_-]` is rejected on the wire; construction (`NewRoomId`) rejects
only the empty string and bad characters, not over-length ids. -/
theorem C8_bounded_decode :
    (∀ (maxLen : Nat) (s : List Nat) (L : Nat) (rest : List Nat),
      readUleb s = some (L, rest) → maxLen < L → readVarchar maxLen s = none) ∧
    (∀ message : List Nat, 200 < message.length → message.length < 2 ^ 63 →
      readClientCommand (writeClientCommand (.chat message)) = none) ∧
    (∀ token : List Nat, 32 < token.length → token.length < 2 ^ 63 →
      readClientCommand (writeClientCommand (.authenticate token)) = none) ∧
    (∀ (v rest : List Nat), v.length < 2 ^ 63 →
      (v = [] ∨ 20 < v.length ∨ ¬ v.all validRoomChar) →
      readRoomId (writeString v ++ rest) = none) ∧
    (∀ v : List Nat, (v = [] ∨ ¬ v.all validRoomChar) → NewRoomId v = none) := by
  have hvarchar : ∀ (maxLen : Nat) (s : List Nat) (L : Nat) (rest : List Nat),
      readUleb s = some (L, rest) → maxLen < L → readVarchar maxLen s = none := by
    intro maxLen s L rest hr hlt
    simp only [readVarchar, hr]
    by_cases hL : L < 2 ^ 63
    · rw [if_pos]
      rw [intOfUint64, if_pos hL]
      exact_mod_cast hlt
    · rw [if_neg, if_pos]
      · rw [intOfUint64, if_neg hL]
        have : (L : Int) < 2 ^ 64 := by
          have := readUleb_lt_two_pow_64 s L rest hr
          exact_mod_cast this
        omega
      · rw [intOfUint64, if_neg hL]
        have hmax0 : (0 : Int) ≤ maxLen := Int.ofNat_nonneg maxLen
        have : (L : Int) < 2 ^ 64 := by
          have := readUleb_lt_two_pow_64 s L rest hr
          exact_mod_cast this
        omega
  have hstringR : ∀ (maxLen : Nat) (v rest : List Nat), maxLen < v.length →
      v.length < 2 ^ 63 → readVarchar maxLen (writeString v ++ rest) = none := by
    intro maxLen v rest hlt hsz
    apply hvarchar maxLen _ v.length (v ++ rest) _ hlt
    rw [writeString, List.append_assoc]
    exact readUleb_writeUleb v.length (v ++ rest) (by omega)
  have hstring : ∀ (maxLen : Nat) (v : List Nat), maxLen < v.length →
      v.length < 2 ^ 63 → readVarchar maxLen (writeVarchar v) = none := by
    intro maxLen v hlt hsz
    apply hvarchar maxLen _ v.length v _ hlt
    rw [writeVarchar, writeString]
    exact readUleb_writeUleb v.length v (by omega)
  refine ⟨hvarchar, ?_, ?_, ?_, ?_⟩
  · intro message hlen hsz
    simp only [writeClientCommand, readClientCommand,
      readUint8_tag 2 (writeVarchar message) (by norm_num)]
    norm_num
    rw [hstring 200 message hlen hsz]
  · intro token hlen hsz
    simp only [writeClientCommand, readClientCommand,
      readUint8_tag 1 (writeVarchar token) (by norm_num)]
    norm_num
    rw [hstring 32 token hlen hsz]
  · intro v rest hsz hbad
    rcases Nat.lt_or_ge 20 v.length with hlong | hshort
    · simp only [readRoomId]
      rw [hstringR 20 v rest hlong hsz]
    · have hok : readVarchar 20 (writeString v ++ rest) = some (v, rest) := by
        have := readVarchar_writeVarchar 20 v rest hshort (by norm_num)
        simpa [writeVarchar] using this
      simp only [readRoomId, hok]
      rcases hbad with hnil | hlen | hchars
      · simp [NewRoomId, hnil]
      · omega
      · simp only [NewRoomId]
        by_cases hnil : v = []
        · simp [hnil]
        · rw [if_neg hnil, if_neg hchars]
  · intro v hbad
    rcases hbad with hnil | hchars
    · simp [NewRoomId, hnil]
    · simp only [NewRoomId]
      by_cases hnil : v = []
      · simp [hnil]
      · rw [if_neg hnil, if_neg hchars]

theorem C8_bounded_decode_witness :
    readVarchar 3 (writeUleb 4 ++ [1, 2, 3, 4]) = none ∧
      readClientCommand (writeClientCommand (.chat (List.replicate 201 97))) = none ∧
      readClientCommand (writeClientCommand
        (.authenticate (List.replicate 33 97))) = none ∧
      readRoomId (writeString (List.replicate 21 97) ++ []) = none ∧
      NewRoomId [32] = none :=
  ⟨C8_bounded_decode.1 3 _ 4 [1, 2, 3, 4]
      (readUleb_writeUleb 4 [1, 2, 3, 4] (by norm_num)) (by norm_num),
    C8_bounded_decode.2.1 _ (by rw [List.length_replicate]; norm_num)
      (by rw [List.length_replicate]; norm_num),
    C8_bounded_decode.2.2.1 _ (by rw [List.length_replicate]; norm_num)
      (by rw [List.length_replicate]; norm_num),
    C8_bounded_decode.2.2.2.1 _ [] (by rw [List.length_replicate]; norm_num)
      (by right; left; rw [List.length_replicate]; norm_num),
    C8_bounded_decode.2.2.2.2 [32] (by right; decide)⟩

/-! ## The Room state machine (`src/unnamed/part_010`, package `server`)

Users are identified by their `int32` id (the Go code stores `*User`
pointers but compares, removes and indexes by `ID` everywhere the claims
touch).  `sync.Map` sets keyed by user id become lists of keys.  The
`IsDisconnected` flag lives on the `User`; it is modelled as a predicate
`disc : Nat → Bool` passed to every membership read (none of the room
operations modelled here mutates it).  `rand.Intn(n)` in `OnUserLeave` is
modelled by an arbitrary `pick : Nat` taken `% n`.

Room operations return the new room state together with the list of sends
they perform; an `Emit` records the recipients (computed from the
membership reads at the moment of the call, exactly as `Broadcast`,
`BroadcastMonitors` and the targeted `user.Send` do) and the command. -/

inductive RState where
  | selectChart
  | waitForReady
  | playing
deriving DecidableEq, Repr

/-- The `common.Message` payloads emitted by the room operations modelled
here (`Message` carries more variants; only these are produced by the
modelled code paths). -/
inductive MessageL where
  | leaveRoom (user : Nat)
  | newHost (user : Nat)
  | startPlaying
  | gameEnd
deriving DecidableEq, Repr

/-- The `common.ServerCommand` payloads sent by the modelled code paths. -/
inductive SCmdL where
  | message (m : MessageL)
  | changeState (state : RState) (chartId : Option Nat)
  | changeHost (isHost : Bool)
  | touches (player : Nat) (frames : List TouchFrame)
  | judges (player : Nat) (events : List JudgeEvent)
deriving DecidableEq, Repr

structure Emit where
  recipients : List Nat
  cmd : SCmdL
deriving DecidableEq, Repr

/-- `math.Float32bits(float32(math.Inf(-1)))`. -/
def negInfBits : Nat := 4286578688

structure RoomSt where
  host : Nat
  state : RState
  userList : List Nat
  monitorList : List Nat
  started : List Nat
  results : List Nat
  aborted : List Nat
  live : Bool
  locked : Bool
  cycle : Bool
  chartId : Option Nat
  gameTime : Nat → Nat

def NewRoom (host : Nat) : RoomSt :=
  { host := host, state := .selectChart, userList := [host], monitorList := [],
    started := [], results := [], aborted := [], live := false, locked := false,
    cycle := false, chartId := none, gameTime := fun _ => 0 }

def RoomSt.GetUsers (disc : Nat → Bool) (r : RoomSt) : List Nat :=
  r.userList.filter (fun u => ! disc u)

def RoomSt.GetMonitors (disc : Nat → Bool) (r : RoomSt) : List Nat :=
  r.monitorList.filter (fun u => ! disc u)

def RoomSt.GetAllUsers (disc : Nat → Bool) (r : RoomSt) : List Nat :=
  r.GetUsers disc ++ r.GetMonitors disc

def RoomSt.AddUser (r : RoomSt) (user : Nat) (monitor : Bool) : Bool × RoomSt :=
  if monitor then (true, { r with monitorList := r.monitorList ++ [user] })
  else if 8 ≤ r.userList.length then (false, r)
  else (true, { r with userList := r.userList ++ [user] })

/-- Remove the first element with the given id (`RemoveUser` loops and
`break`s at the first match). -/
def removeFirst (userID : Nat) : List Nat → List Nat
  | [] => []
  | u :: rest => if u = userID then rest else u :: removeFirst userID rest

def RoomSt.RemoveUser (r : RoomSt) (userID : Nat) : RoomSt :=
  { r with userList := removeFirst userID r.userList,
           monitorList := removeFirst userID r.monitorList }

def RoomSt.SendMessage (disc : Nat → Bool) (r : RoomSt) (m : MessageL) : Emit :=
  ⟨r.GetAllUsers disc, .message m⟩

def RoomSt.Broadcast (disc : Nat → Bool) (r : RoomSt) (cmd : SCmdL) : Emit :=
  ⟨r.GetAllUsers disc, cmd⟩

def RoomSt.BroadcastMonitors (disc : Nat → Bool) (r : RoomSt) (cmd : SCmdL) : Emit :=
  ⟨r.GetMonitors disc, cmd⟩

def sendTo (user : Nat) (cmd : SCmdL) : Emit := ⟨[user], cmd⟩

def RoomSt.ResetGameTime (disc : Nat → Bool) (r : RoomSt) : RoomSt :=
  { r with gameTime := fun u => if u ∈ r.GetUsers disc then negInfBits else r.gameTime u }

def RoomSt.CycleHost (disc : Nat → Bool) (r : RoomSt) : RoomSt × List Emit :=
  let users := r.GetUsers disc
  if users.isEmpty then (r, [])
  else
    let oldHost := r.host
    let newHostIndex :=
      match users.indexOf? oldHost with
      | some i => (i + 1) % users.length
      | none => 0
    let newHost := users.getD newHostIndex 0
    let r2 := { r with host := newHost }
    (r2, [r2.SendMessage disc (.newHost newHost),
          sendTo oldHost (.changeHost false),
          sendTo newHost (.changeHost true)])

def allReadyB (disc : Nat → Bool) (r : RoomSt) : Bool :=
  (r.GetUsers disc).all (fun u => r.started.contains u)

def allDoneB (disc : Nat → Bool) (r : RoomSt) : Bool :=
  (r.GetUsers disc).all (fun u => r.results.contains u || r.aborted.contains u)

def RoomSt.CheckAllReady (disc : Nat → Bool) (r : RoomSt) : RoomSt × List Emit :=
  match r.state with
  | .waitForReady =>
    if allReadyB disc r then
      let r1 := { r with results := [], aborted := [] }
      let e1 := r1.SendMessage disc .startPlaying
      let r2 := r1.ResetGameTime disc
      let r3 := { r2 with state := .playing }
      let e2 := r3.Broadcast disc (.changeState .playing none)
      (r3, [e1, e2])
    else (r, [])
  | .playing =>
    if allDoneB disc r then
      let e1 := r.SendMessage disc .gameEnd
      let r1 := { r with started := [], results := [], aborted := [],
                         state := .selectChart }
      let p := if r.cycle then r1.CycleHost disc else (r1, [])
      let e2 := p.1.Broadcast disc (.changeState .selectChart p.1.chartId)
      (p.1, e1 :: p.2 ++ [e2])
    else (r, [])
  | .selectChart => (r, [])

/-- `OnUserLeave`; `none` in the first component is the `return true`
("delete the room") path.  The Go code checks `GetHost().ID == user.ID` after
the removal, picks the replacement host `users[rand.Intn(len(users))]` from
the post-removal connected players, and only then falls through to
`CheckAllReady`; on the deletion path it returns before `CheckAllReady`. -/
def RoomSt.OnUserLeave (disc : Nat → Bool) (r : RoomSt) (user pick : Nat) :
    Option RoomSt × List Emit :=
  let e1 := r.SendMessage disc (.leaveRoom user)
  let r1 := r.RemoveUser user
  if r.host = user then
    let users := r1.GetUsers disc
    if users.isEmpty then (none, [e1])
    else
      let newHost := users.getD (pick % users.length) 0
      let r2 := { r1 with host := newHost }
      let e2 := r2.SendMessage disc (.newHost newHost)
      let e3 := sendTo newHost (.changeHost true)
      let p := r2.CheckAllReady disc
      (some p.1, e1 :: e2 :: e3 :: p.2)
  else
    let p := r1.CheckAllReady disc
    (some p.1, e1 :: p.2)

/-- Rooms reachable from `NewRoom` through the core membership operations
(surviving rooms only: a `leave` step that reports deletion removes the
room). -/
inductive Reachable (disc : Nat → Bool) : RoomSt → Prop where
  | new (host : Nat) : Reachable disc (NewRoom host)
  | add {r : RoomSt} (user : Nat) (monitor : Bool) :
      Reachable disc r → Reachable disc (r.AddUser user monitor).2
  | leave {r r2 : RoomSt} {emits : List Emit} (user pick : Nat) :
      Reachable disc r → r.OnUserLeave disc user pick = (some r2, emits) →
      Reachable disc r2
  | cycle {r : RoomSt} :
      Reachable disc r → Reachable disc (r.CycleHost disc).1

theorem removeFirst_length_le (userID : Nat) (l : List Nat) :
    (removeFirst userID l).length ≤ l.length := by
  induction l with
  | nil => simp [removeFirst]
  | cons u rest ih =>
    by_cases h : u = userID <;> simp [removeFirst, h] <;> omega

theorem mem_removeFirst_of_ne {a b : Nat} {l : List Nat} (ha : a ∈ l)
    (hne : a ≠ b) : a ∈ removeFirst b l := by
  induction l with
  | nil => simp at ha
  | cons u rest ih =>
    by_cases h : u = b
    · simp only [removeFirst, if_pos h]
      rcases List.mem_cons.mp ha with rfl | hmem
      · exact absurd h hne
      · exact hmem
    · simp only [removeFirst, if_neg h]
      rcases List.mem_cons.mp ha with rfl | hmem
      · exact List.mem_cons_self _ _
      · exact List.mem_cons_of_mem _ (ih hmem)

theorem getD_mem (l : List Nat) (i d : Nat) (h : i < l.length) :
    l.getD i d ∈ l := by
  rw [List.getD_eq_getElem l d h]
  exact List.getElem_mem h

theorem GetUsers_sub (disc : Nat → Bool) (r : RoomSt) :
    ∀ u ∈ r.GetUsers disc, u ∈ r.userList := by
  intro u hu
  exact (List.mem_filter.mp hu).1

theorem CycleHost_userList (disc : Nat → Bool) (r : RoomSt) :
    ((r.CycleHost disc).1).userList = r.userList := by
  unfold RoomSt.CycleHost
  by_cases h : (r.GetUsers disc).isEmpty <;> simp [h]

theorem CycleHost_monitorList (disc : Nat → Bool) (r : RoomSt) :
    ((r.CycleHost disc).1).monitorList = r.monitorList := by
  unfold RoomSt.CycleHost
  by_cases h : (r.GetUsers disc).isEmpty <;> simp [h]

theorem CycleHost_host_mem (disc : Nat → Bool) (r : RoomSt)
    (h : r.host ∈ r.userList) : ((r.CycleHost disc).1).host ∈ r.userList := by
  unfold RoomSt.CycleHost
  by_cases hemp : (r.GetUsers disc).isEmpty
  · simpa [hemp] using h
  · have hlen : 0 < (r.GetUsers disc).length := by
      cases hu : r.GetUsers disc with
      | nil => rw [hu] at hemp; simp at hemp
      | cons a l => simp [hu]
    simp only [hemp, Bool.false_eq_true, if_false]
    apply GetUsers_sub disc r
    apply getD_mem
    cases hidx : (r.GetUsers disc).indexOf? r.host with
    | none => simpa [hidx] using hlen
    | some i =>
      simp only [hidx]
      exact Nat.mod_lt _ hlen

theorem CheckAllReady_userList (disc : Nat → Bool) (r : RoomSt) :
    ((r.CheckAllReady disc).1).userList = r.userList := by
  unfold RoomSt.CheckAllReady
  cases r.state with
  | selectChart => rfl
  | waitForReady =>
    by_cases h : allReadyB disc r <;> simp [h, RoomSt.ResetGameTime]
  | playing =>
    by_cases h : allDoneB disc r
    · simp only [h, if_true]
      by_cases hc : r.cycle
      · simp only [hc, if_true]
        rw [CycleHost_userList]
      · simp [hc]
    · simp [h]

theorem CheckAllReady_host_mem (disc : Nat → Bool) (r : RoomSt)
    (h : r.host ∈ r.userList) :
    ((r.CheckAllReady disc).1).host ∈ ((r.CheckAllReady disc).1).userList := by
  rw [CheckAllReady_userList]
  unfold RoomSt.CheckAllReady
  cases r.state with
  | selectChart => exact h
  | waitForReady =>
    by_cases hr : allReadyB disc r <;> simp [hr, RoomSt.ResetGameTime] <;> exact h
  | playing =>
    by_cases hd : allDoneB disc r
    · simp only [hd, if_true]
      by_cases hc : r.cycle
      · simp only [hc, if_true]
        have := CycleHost_host_mem disc
          { r with started := [], results := [], aborted := [],
                   state := .selectChart, cycle := true }
          (by simpa using h)
        simpa using this
      · simpa [hc] using h
    · simpa [hd] using h

theorem GetUsers_RemoveUser (disc : Nat → Bool) (r : RoomSt) (user : Nat) :
    (r.RemoveUser user).GetUsers disc = (removeFirst user r.userList).filter (fun u => ! disc u) := rfl

theorem roomInvariant (disc : Nat → Bool) (r : RoomSt) (hr : Reachable disc r) :
    r.host ∈ r.userList ∧ 1 ≤ r.userList.length ∧ r.userList.length ≤ 8 := by
  induction hr with
  | new host => simp [NewRoom]
  | add user monitor hr ih =>
    rename_i r
    obtain ⟨h1, h2, h3⟩ := ih
    by_cases hm : monitor
    · simpa [RoomSt.AddUser, hm] using ⟨h1, h2, h3⟩
    · by_cases hfull : 8 ≤ r.userList.length
      · simpa [RoomSt.AddUser, hm, hfull] using ⟨h1, h2, h3⟩
      · refine ⟨?_, ?_, ?_⟩ <;> simp only [RoomSt.AddUser, hm, hfull,
          Bool.false_eq_true, if_false, List.length_append, List.length_cons,
          List.length_nil]
        · simpa using Or.inl h1
        · omega
        · omega
  | leave user pick hr heq ih =>
    rename_i r r2 emits
    obtain ⟨h1, h2, h3⟩ := ih
    unfold RoomSt.OnUserLeave at heq
    by_cases hhost : r.host = user
    · simp only [if_pos hhost] at heq
      by_cases hemp : ((r.RemoveUser user).GetUsers disc).isEmpty
      · simp [hemp] at heq
      · simp only [hemp, Bool.false_eq_true, if_false, Prod.mk.injEq,
          Option.some.injEq] at heq
        obtain ⟨hr2, -⟩ := heq
        have hlen : 0 < ((r.RemoveUser user).GetUsers disc).length := by
          cases hu : (r.RemoveUser user).GetUsers disc with
          | nil => rw [hu] at hemp; simp at hemp
          | cons a l => simp [hu]
        have hnewmem : ((r.RemoveUser user).GetUsers disc).getD
            (pick % ((r.RemoveUser user).GetUsers disc).length) 0
            ∈ (r.RemoveUser user).userList := by
          apply GetUsers_sub
          exact getD_mem _ _ _ (Nat.mod_lt _ hlen)
        set rmid : RoomSt :=
          { r.RemoveUser user with
            host := ((r.RemoveUser user).GetUsers disc).getD
              (pick % ((r.RemoveUser user).GetUsers disc).length) 0 } with hrmid
        have hmidmem : rmid.host ∈ rmid.userList := by
          simpa [hrmid, RoomSt.RemoveUser] using hnewmem
        have hfinal := CheckAllReady_host_mem disc rmid hmidmem
        subst hr2
        refine ⟨hfinal, ?_, ?_⟩
        · rw [CheckAllReady_userList]
          have : rmid.host ∈ rmid.userList := hmidmem
          have hne : rmid.userList ≠ [] := by
            intro hnil
            rw [hnil] at this
            simp at this
          have := List.length_pos_of_ne_nil hne
          simpa [hrmid, RoomSt.RemoveUser] using this
        · rw [CheckAllReady_userList]
          have := removeFirst_length_le user r.userList
          simp only [hrmid, RoomSt.RemoveUser]
          omega
    · simp only [if_neg hhost, Prod.mk.injEq, Option.some.injEq] at heq
      obtain ⟨hr2, -⟩ := heq
      have hmidmem : (r.RemoveUser user).host ∈ (r.RemoveUser user).userList := by
        simp only [RoomSt.RemoveUser]
        exact mem_removeFirst_of_ne h1 hhost
      have hfinal := CheckAllReady_host_mem disc (r.RemoveUser user) hmidmem
      subst hr2
      refine ⟨hfinal, ?_, ?_⟩
      · rw [CheckAllReady_userList]
        have hne : (r.RemoveUser user).userList ≠ [] := by
          intro hnil
          rw [hnil] at hmidmem
          simp at hmidmem
        have := List.length_pos_of_ne_nil hne
        omega
      · rw [CheckAllReady_userList]
        have := removeFirst_length_le user r.userList
        simp only [RoomSt.RemoveUser]
        omega
  | cycle hr ih =>
    rename_i r
    obtain ⟨h1, h2, h3⟩ := ih
    refine ⟨?_, ?_, ?_⟩
    · rw [CycleHost_userList]
      exact CycleHost_host_mem disc r h1
    · rw [CycleHost_userList]; exact h2
    · rw [CycleHost_userList]; exact h3

theorem OnUserLeave_delete_iff (r : RoomSt) (user pick : Nat)
    (hr : Reachable (fun _ => false) r) :
    ((r.OnUserLeave (fun _ => false) user pick).1 = none ↔
      removeFirst user r.userList = []) := by
  obtain ⟨h1, h2, h3⟩ := roomInvariant _ r hr
  unfold RoomSt.OnUserLeave
  have hG : (r.RemoveUser user).GetUsers (fun _ => false)
      = removeFirst user r.userList := by
    simp [RoomSt.GetUsers, RoomSt.RemoveUser]
  by_cases hhost : r.host = user
  · simp only [if_pos hhost, hG]
    by_cases hemp : (removeFirst user r.userList).isEmpty
    · simp only [hemp, if_true]
      simpa using List.isEmpty_iff.mp hemp
    · simp only [hemp, Bool.false_eq_true, if_false]
      constructor
      · intro h
        simp at h
      · intro h
        rw [h] at hemp
        simp at hemp
  · simp only [if_neg hhost]
    constructor
    · intro h
      simp at h
    · intro h
      exfalso
      have := mem_removeFirst_of_ne h1 hhost
      rw [h] at this
      simp at this

/-- C1: Room membership invariant: for every room reachable through the core
operations (`NewRoom`, `AddUser`, `OnUserLeave`, `CycleHost`), the current
host is a member of the room's player list and the number of players is
between 1 and 8; `AddUser` refuses a 9th player (returns `false`, leaving the
room unchanged) while appending a monitor unconditionally; and, with every
member connected, `OnUserLeave` reports the room for deletion exactly when no
players remain after the removal. -/
theorem C1_room_membership :
    (∀ (disc : Nat → Bool) (r : RoomSt), Reachable disc r →
      r.host ∈ r.userList ∧ 1 ≤ r.userList.length ∧ r.userList.length ≤ 8) ∧
    (∀ (r : RoomSt) (user : Nat), 8 ≤ r.userList.length →
      (r.AddUser user false).1 = false ∧ (r.AddUser user false).2 = r) ∧
    (∀ (r : RoomSt) (user : Nat), (r.AddUser user true).1 = true ∧
      (r.AddUser user true).2.monitorList = r.monitorList ++ [user]) ∧
    (∀ (r : RoomSt) (user pick : Nat), Reachable (fun _ => false) r →
      ((r.OnUserLeave (fun _ => false) user pick).1 = none ↔
        removeFirst user r.userList = [])) := by
  refine ⟨roomInvariant, ?_, ?_, OnUserLeave_delete_iff⟩
  · intro r user hfull
    constructor <;> simp [RoomSt.AddUser, hfull]
  · intro r user
    constructor <;> simp [RoomSt.AddUser]

theorem C1_room_membership_witness :
    ((NewRoom 5).host ∈ (NewRoom 5).userList ∧
      1 ≤ (NewRoom 5).userList.length ∧ (NewRoom 5).userList.length ≤ 8) ∧
    (let rfull : RoomSt := { NewRoom 0 with userList := [0, 1, 2, 3, 4, 5, 6, 7] }
     (rfull.AddUser 9 false).1 = false ∧ (rfull.AddUser 9 false).2 = rfull) ∧
    (((NewRoom 5).AddUser 9 true).1 = true ∧
      ((NewRoom 5).AddUser 9 true).2.monitorList = (NewRoom 5).monitorList ++ [9]) ∧
    (((NewRoom 5).OnUserLeave (fun _ => false) 5 0).1 = none ↔
      removeFirst 5 (NewRoom 5).userList = []) :=
  ⟨C1_room_membership.1 (fun _ => false) (NewRoom 5) (.new 5),
    C1_room_membership.2.1 _ 9 (by decide),
    C1_room_membership.2.2.1 (NewRoom 5) 9,
    C1_room_membership.2.2.2 (NewRoom 5) 5 0 (.new 5)⟩

theorem indexOf?_eq_some_of_mem {a : Nat} {l : List Nat} (h : a ∈ l) :
    l.indexOf? a = some (l.indexOf a) := by
  have hlt : l.indexOf a < l.length := List.indexOf_lt_length.mpr h
  have heq := List.indexOf_eq_indexOf? a l
  cases hio : l.indexOf? a with
  | none => rw [hio] at heq; simp at heq; omega
  | some i => rw [hio] at heq; simp at heq; rw [heq]

/-- The host the `CycleHost` rotation picks: the player at the next index
after the current host in current player order, wrapping around. -/
def rotatedHost (disc : Nat → Bool) (r : RoomSt) : Nat :=
  (r.GetUsers disc).getD
    (((r.GetUsers disc).indexOf r.host + 1) % (r.GetUsers disc).length) 0

theorem CycleHost_spec (disc : Nat → Bool) (r : RoomSt)
    (hmem : r.host ∈ r.GetUsers disc) :
    r.CycleHost disc =
      ({ r with host := rotatedHost disc r },
       [⟨r.GetAllUsers disc, .message (.newHost (rotatedHost disc r))⟩,
        ⟨[r.host], .changeHost false⟩,
        ⟨[rotatedHost disc r], .changeHost true⟩]) := by
  have hne : ¬ (r.GetUsers disc).isEmpty := by
    cases hu : r.GetUsers disc with
    | nil => rw [hu] at hmem; simp at hmem
    | cons a l => simp [hu]
  unfold RoomSt.CycleHost
  simp only [hne, Bool.false_eq_true, if_false, indexOf?_eq_some_of_mem hmem]
  rfl

/-- C2: `CheckAllReady` scheduler: in `WaitForReady` with every current
player ready it clears results and aborted, broadcasts
`Message::StartPlaying`, resets per-player game time, moves to `Playing` and
broadcasts `ChangeState(Playing)`; in `Playing` with every current player in
results ∪ aborted it broadcasts `Message::GameEnd`, clears
ready/results/aborted, moves to `SelectChart`, rotates the host to the next
index in current player order (wrapping) exactly when the cycle flag is set,
and broadcasts `ChangeState(SelectChart, chart_id)`; in every other case the
room state, host and per-round sets are unchanged and nothing is emitted. -/
theorem C2_check_all_ready (disc : Nat → Bool) (r : RoomSt) :
    (r.state = .waitForReady → allReadyB disc r = true →
      ((r.CheckAllReady disc).1.state = .playing ∧
        (r.CheckAllReady disc).1.results = [] ∧
        (r.CheckAllReady disc).1.aborted = [] ∧
        (r.CheckAllReady disc).1.started = r.started ∧
        (r.CheckAllReady disc).1.host = r.host ∧
        (r.CheckAllReady disc).1.userList = r.userList ∧
        (r.CheckAllReady disc).1.monitorList = r.monitorList ∧
        (∀ u ∈ r.GetUsers disc, (r.CheckAllReady disc).1.gameTime u = negInfBits) ∧
        (∀ u, u ∉ r.GetUsers disc → (r.CheckAllReady disc).1.gameTime u = r.gameTime u) ∧
        (r.CheckAllReady disc).2 =
          [⟨r.GetAllUsers disc, .message .startPlaying⟩,
           ⟨r.GetAllUsers disc, .changeState .playing none⟩])) ∧
    (r.state = .playing → allDoneB disc r = true → r.host ∈ r.GetUsers disc →
      ((r.CheckAllReady disc).1.state = .selectChart ∧
        (r.CheckAllReady disc).1.started = [] ∧
        (r.CheckAllReady disc).1.results = [] ∧
        (r.CheckAllReady disc).1.aborted = [] ∧
        (r.CheckAllReady disc).1.userList = r.userList ∧
        (r.CheckAllReady disc).1.monitorList = r.monitorList ∧
        (∀ u, (r.CheckAllReady disc).1.gameTime u = r.gameTime u) ∧
        (r.cycle = false → (r.CheckAllReady disc).1.host = r.host ∧
          (r.CheckAllReady disc).2 =
            [⟨r.GetAllUsers disc, .message .gameEnd⟩,
             ⟨r.GetAllUsers disc, .changeState .selectChart r.chartId⟩]) ∧
        (r.cycle = true → (r.CheckAllReady disc).1.host = rotatedHost disc r ∧
          (r.CheckAllReady disc).2 =
            [⟨r.GetAllUsers disc, .message .gameEnd⟩,
             ⟨r.GetAllUsers disc, .message (.newHost (rotatedHost disc r))⟩,
             ⟨[r.host], .changeHost false⟩,
             ⟨[rotatedHost disc r], .changeHost true⟩,
             ⟨r.GetAllUsers disc, .changeState .selectChart r.chartId⟩]))) ∧
    ((r.state = .selectChart ∨
      (r.state = .waitForReady ∧ allReadyB disc r = false) ∨
      (r.state = .playing ∧ allDoneB disc r = false)) →
      r.CheckAllReady disc = (r, [])) := by
  refine ⟨?_, ?_, ?_⟩
  · intro hs hready
    unfold RoomSt.CheckAllReady
    rw [hs]
    rw [if_pos hready]
    refine ⟨rfl, rfl, rfl, rfl, rfl, rfl, rfl, ?_, ?_, rfl⟩
    · intro u hu
      have hu2 : u ∈ r.userList.filter (fun x => ! disc x) := hu
      show (if u ∈ r.userList.filter (fun x => ! disc x) then negInfBits
        else r.gameTime u) = negInfBits
      rw [if_pos hu2]
    · intro u hu
      have hu2 : u ∉ r.userList.filter (fun x => ! disc x) := hu
      show (if u ∈ r.userList.filter (fun x => ! disc x) then negInfBits
        else r.gameTime u) = r.gameTime u
      rw [if_neg hu2]
  · intro hs hdone hmem
    unfold RoomSt.CheckAllReady
    rw [hs]
    dsimp only
    rw [if_pos hdone]
    by_cases hc : r.cycle
    · rw [if_pos hc]
      have hcyc := CycleHost_spec disc
        (RoomSt.mk r.host RState.selectChart r.userList r.monitorList [] [] []
          r.live r.locked r.cycle r.chartId r.gameTime) hmem
      rw [hcyc]
      refine ⟨rfl, rfl, rfl, rfl, rfl, rfl, fun u => rfl, ?_, fun _ => ⟨rfl, rfl⟩⟩
      intro hcf
      rw [hcf] at hc
      cases hc
    · rw [if_neg hc]
      refine ⟨rfl, rfl, rfl, rfl, rfl, rfl, fun u => rfl, fun _ => ⟨rfl, rfl⟩, ?_⟩
      intro hct
      exact absurd hct hc
  · intro hcase
    rcases hcase with hs | ⟨hs, hb⟩ | ⟨hs, hb⟩
    · unfold RoomSt.CheckAllReady
      rw [hs]
    · unfold RoomSt.CheckAllReady
      rw [hs]
      dsimp only
      rw [if_neg (by simp [hb])]
    · unfold RoomSt.CheckAllReady
      rw [hs]
      dsimp only
      rw [if_neg (by simp [hb])]

theorem C2_check_all_ready_witness :
    (let r1 : RoomSt := { NewRoom 1 with state := .waitForReady, started := [1] }
     (r1.CheckAllReady (fun _ => false)).1.state = .playing ∧
       (r1.CheckAllReady (fun _ => false)).1.results = [] ∧
       (r1.CheckAllReady (fun _ => false)).1.aborted = [] ∧
       (r1.CheckAllReady (fun _ => false)).1.started = r1.started ∧
       (r1.CheckAllReady (fun _ => false)).1.host = r1.host ∧
       (r1.CheckAllReady (fun _ => false)).1.userList = r1.userList ∧
       (r1.CheckAllReady (fun _ => false)).1.monitorList = r1.monitorList ∧
       (∀ u ∈ r1.GetUsers (fun _ => false),
         (r1.CheckAllReady (fun _ => false)).1.gameTime u = negInfBits) ∧
       (∀ u, u ∉ r1.GetUsers (fun _ => false) →
         (r1.CheckAllReady (fun _ => false)).1.gameTime u = r1.gameTime u) ∧
       (r1.CheckAllReady (fun _ => false)).2 =
         [⟨r1.GetAllUsers (fun _ => false), .message .startPlaying⟩,
          ⟨r1.GetAllUsers (fun _ => false), .changeState .playing none⟩]) ∧
    (let r2 : RoomSt := { NewRoom 1 with state := .playing, results := [1], cycle := true }
     (r2.CheckAllReady (fun _ => false)).1.state = .selectChart ∧
       (r2.CheckAllReady (fun _ => false)).1.started = [] ∧
       (r2.CheckAllReady (fun _ => false)).1.results = [] ∧
       (r2.CheckAllReady (fun _ => false)).1.aborted = [] ∧
       (r2.CheckAllReady (fun _ => false)).1.userList = r2.userList ∧
       (r2.CheckAllReady (fun _ => false)).1.monitorList = r2.monitorList ∧
       (∀ u, (r2.CheckAllReady (fun _ => false)).1.gameTime u = r2.gameTime u) ∧
       (r2.cycle = false → (r2.CheckAllReady (fun _ => false)).1.host = r2.host ∧
         (r2.CheckAllReady (fun _ => false)).2 =
           [⟨r2.GetAllUsers (fun _ => false), .message .gameEnd⟩,
            ⟨r2.GetAllUsers (fun _ => false), .changeState .selectChart r2.chartId⟩]) ∧
       (r2.cycle = true →
         (r2.CheckAllReady (fun _ => false)).1.host = rotatedHost (fun _ => false) r2 ∧
         (r2.CheckAllReady (fun _ => false)).2 =
           [⟨r2.GetAllUsers (fun _ => false), .message .gameEnd⟩,
            ⟨r2.GetAllUsers (fun _ => false),
              .message (.newHost (rotatedHost (fun _ => false) r2))⟩,
            ⟨[r2.host], .changeHost false⟩,
            ⟨[rotatedHost (fun _ => false) r2], .changeHost true⟩,
            ⟨r2.GetAllUsers (fun _ => false), .changeState .selectChart r2.chartId⟩])) ∧
    ((NewRoom 1).CheckAllReady (fun _ => false) = (NewRoom 1, [])) :=
  ⟨(C2_check_all_ready (fun _ => false) _).1 rfl (by decide),
    (C2_check_all_ready (fun _ => false) _).2.1 rfl (by decide) (by decide),
    (C2_check_all_ready (fun _ => false) _).2.2 (Or.inl rfl)⟩

theorem mem_GetUsers_disc (disc : Nat → Bool) (r : RoomSt) :
    ∀ v ∈ r.GetUsers disc, disc v = false := by
  intro v hv
  have := (List.mem_filter.mp hv).2
  simpa using this

theorem not_mem_GetUsers (disc : Nat → Bool) (r : RoomSt) (u : Nat)
    (hd : disc u = true) : u ∉ r.GetUsers disc := by
  intro hu
  have := mem_GetUsers_disc disc r u hu
  rw [hd] at this
  cases this

theorem not_mem_GetMonitors (disc : Nat → Bool) (r : RoomSt) (u : Nat)
    (hd : disc u = true) : u ∉ r.GetMonitors disc := by
  intro hu
  have := (List.mem_filter.mp hu).2
  rw [hd] at this
  simp at this

theorem not_mem_GetAllUsers (disc : Nat → Bool) (r : RoomSt) (u : Nat)
    (hd : disc u = true) : u ∉ r.GetAllUsers disc := by
  intro hu
  rcases List.mem_append.mp hu with h | h
  · exact not_mem_GetUsers disc r u hd h
  · exact not_mem_GetMonitors disc r u hd h

theorem all_congr_mem {l : List Nat} {p q : Nat → Bool}
    (h : ∀ a ∈ l, p a = q a) : l.all p = l.all q := by
  induction l with
  | nil => rfl
  | cons a t ih =>
    simp only [List.all_cons, h a (by simp),
      ih (fun b hb => h b (by simp [hb]))]

theorem CycleHost_host_disc (disc : Nat → Bool) (r : RoomSt)
    (h : disc r.host = false) : disc ((r.CycleHost disc).1).host = false := by
  unfold RoomSt.CycleHost
  by_cases hemp : (r.GetUsers disc).isEmpty
  · simpa [hemp] using h
  · have hlen : 0 < (r.GetUsers disc).length := by
      cases hu : r.GetUsers disc with
      | nil => rw [hu] at hemp; simp at hemp
      | cons a l => simp [hu]
    simp only [hemp, Bool.false_eq_true, if_false]
    apply mem_GetUsers_disc disc r
    apply getD_mem
    cases hidx : (r.GetUsers disc).indexOf? r.host with
    | none => simpa [hidx] using hlen
    | some i =>
      simp only [hidx]
      exact Nat.mod_lt _ hlen

theorem CheckAllReady_host_disc (disc : Nat → Bool) (r : RoomSt)
    (h : disc r.host = false) :
    disc ((r.CheckAllReady disc).1).host = false := by
  unfold RoomSt.CheckAllReady
  cases hst : r.state with
  | selectChart => exact h
  | waitForReady =>
    by_cases hready : allReadyB disc r <;> simp [hready, RoomSt.ResetGameTime] <;> exact h
  | playing =>
    by_cases hdone : allDoneB disc r
    · simp only [hdone, if_true]
      by_cases hc : r.cycle
      · simp only [hc, if_true]
        have := CycleHost_host_disc disc
          { r with started := [], results := [], aborted := [],
                   state := .selectChart, cycle := true } h
        simpa using this
      · simpa [hc] using h
    · simpa [hdone] using h

theorem CycleHost_emits_recipients (disc : Nat → Bool) (x : RoomSt) (u : Nat)
    (hd : disc u = true) :
    ∀ e ∈ (x.CycleHost disc).2,
      (∃ b, e.cmd = .changeHost b) ∨ u ∉ e.recipients := by
  unfold RoomSt.CycleHost
  by_cases hemp : (x.GetUsers disc).isEmpty
  · rw [if_pos hemp]
    intro e he
    simp at he
  · rw [if_neg hemp]
    dsimp only
    intro e he
    rcases List.mem_cons.mp he with rfl | he2
    · exact Or.inr (not_mem_GetAllUsers disc _ u hd)
    · rcases List.mem_cons.mp he2 with rfl | he3
      · exact Or.inl ⟨false, rfl⟩
      · rcases List.mem_singleton.mp he3 with rfl
        exact Or.inl ⟨true, rfl⟩

theorem CheckAllReady_emits_recipients (disc : Nat → Bool) (r : RoomSt) (u : Nat)
    (hd : disc u = true) :
    ∀ e ∈ (r.CheckAllReady disc).2,
      (∃ b, e.cmd = .changeHost b) ∨ u ∉ e.recipients := by
  intro e he
  unfold RoomSt.CheckAllReady at he
  cases hst : r.state <;> rw [hst] at he <;> dsimp only at he
  · simp at he
  · by_cases hready : allReadyB disc r
    · rw [if_pos hready] at he
      dsimp only at he
      rcases List.mem_cons.mp he with rfl | he2
      · exact Or.inr (not_mem_GetAllUsers disc _ u hd)
      · rcases List.mem_singleton.mp he2 with rfl
        exact Or.inr (not_mem_GetAllUsers disc _ u hd)
    · rw [if_neg hready] at he
      simp at he
  · by_cases hdone : allDoneB disc r
    · rw [if_pos hdone] at he
      dsimp only at he
      by_cases hc : r.cycle
      · rw [if_pos hc] at he
        rcases List.mem_cons.mp he with rfl | he2
        · exact Or.inr (not_mem_GetAllUsers disc _ u hd)
        · rcases List.mem_append.mp he2 with he3 | he4
          · exact CycleHost_emits_recipients disc _ u hd e he3
          · rcases List.mem_singleton.mp he4 with rfl
            exact Or.inr (not_mem_GetAllUsers disc _ u hd)
      · rw [if_neg hc] at he
        rcases List.mem_cons.mp he with rfl | he2
        · exact Or.inr (not_mem_GetAllUsers disc _ u hd)
        · rcases List.mem_singleton.mp (by simpa using he2) with rfl
          exact Or.inr (not_mem_GetAllUsers disc _ u hd)
    · rw [if_neg hdone] at he
      simp at he

/-- C10: every room-membership read (`GetUsers`, `GetMonitors`,
`GetAllUsers`) excludes users whose disconnected flag is set, so a player
marked disconnected does not figure in `CheckAllReady`'s all-ready/all-done
checks (its ready/result/aborted status is irrelevant to them, so it cannot
block a round from starting or ending), is in no broadcast's recipient set,
and is never selected as the new host by `OnUserLeave`. -/
theorem C10_disconnected_excluded (disc : Nat → Bool) (r : RoomSt) (u : Nat)
    (hd : disc u = true) :
    u ∉ r.GetUsers disc ∧ u ∉ r.GetMonitors disc ∧ u ∉ r.GetAllUsers disc ∧
    (∀ started2 : List Nat,
      (∀ v, v ≠ u → started2.contains v = r.started.contains v) →
      allReadyB disc { r with started := started2 } = allReadyB disc r) ∧
    (∀ results2 aborted2 : List Nat,
      (∀ v, v ≠ u → results2.contains v = r.results.contains v) →
      (∀ v, v ≠ u → aborted2.contains v = r.aborted.contains v) →
      allDoneB disc { r with results := results2, aborted := aborted2 }
        = allDoneB disc r) ∧
    (∀ cmd, u ∉ (r.Broadcast disc cmd).recipients ∧
      u ∉ (r.BroadcastMonitors disc cmd).recipients) ∧
    (∀ e ∈ (r.CheckAllReady disc).2,
      (∃ b, e.cmd = .changeHost b) ∨ u ∉ e.recipients) ∧
    (∀ (user pick : Nat) (r2 : RoomSt) (emits : List Emit),
      r.OnUserLeave disc user pick = (some r2, emits) → r.host = user →
      disc r2.host = false) := by
  have hne : ∀ v ∈ r.GetUsers disc, v ≠ u := by
    intro v hv hvu
    rw [hvu] at hv
    exact not_mem_GetUsers disc r u hd hv
  refine ⟨not_mem_GetUsers disc r u hd, not_mem_GetMonitors disc r u hd,
    not_mem_GetAllUsers disc r u hd, ?_, ?_, ?_,
    CheckAllReady_emits_recipients disc r u hd, ?_⟩
  · intro started2 hs2
    unfold allReadyB
    exact all_congr_mem (fun v hv => hs2 v (hne v hv))
  · intro results2 aborted2 hs2 hs3
    unfold allDoneB
    exact all_congr_mem (fun v hv => by rw [hs2 v (hne v hv), hs3 v (hne v hv)])
  · intro cmd
    exact ⟨not_mem_GetAllUsers disc r u hd, not_mem_GetMonitors disc r u hd⟩
  · intro user pick r2 emits heq hhost
    unfold RoomSt.OnUserLeave at heq
    rw [if_pos hhost] at heq
    by_cases hemp : ((r.RemoveUser user).GetUsers disc).isEmpty
    · rw [if_pos hemp] at heq
      cases heq
    · rw [if_neg hemp] at heq
      dsimp only at heq
      have hlen : 0 < ((r.RemoveUser user).GetUsers disc).length := by
        cases hu : (r.RemoveUser user).GetUsers disc with
        | nil => rw [hu] at hemp; simp at hemp
        | cons a l => simp [hu]
      have hpickdisc : disc (((r.RemoveUser user).GetUsers disc).getD
          (pick % ((r.RemoveUser user).GetUsers disc).length) 0) = false :=
        mem_GetUsers_disc disc _ _ (getD_mem _ _ _ (Nat.mod_lt _ hlen))
      have hfin := CheckAllReady_host_disc disc
        { r.RemoveUser user with
          host := ((r.RemoveUser user).GetUsers disc).getD
            (pick % ((r.RemoveUser user).GetUsers disc).length) 0 } hpickdisc
      obtain ⟨hr2, -⟩ := Prod.mk.injEq .. ▸ heq
      cases heq
      exact hfin

theorem C10_disconnected_excluded_witness :
    2 ∉ RoomSt.GetUsers (fun v => v == 2) { NewRoom 1 with userList := [1, 2] } ∧
      2 ∉ RoomSt.GetMonitors (fun v => v == 2) { NewRoom 1 with userList := [1, 2] } ∧
      2 ∉ RoomSt.GetAllUsers (fun v => v == 2) { NewRoom 1 with userList := [1, 2] } :=
  have h := C10_disconnected_excluded (fun v => v == 2)
    { NewRoom 1 with userList := [1, 2] } 2 (by decide)
  ⟨h.1, h.2.1, h.2.2.1⟩

/-! ## Half-precision conversion (`src/unnamed/part_005`,
`float32ToF16Bits` / `f16BitsToFloat32`)

`f32` values are carried as their `uint32` bit patterns.  The Go converter
truncates the mantissa (no rounding), flushes `exp <= 0` to a signed zero
and clamps `exp >= 31` to the signed infinity encoding.  The decoder's
subnormal normalisation loop (`for frac&0x400 == 0 { frac <<= 1; exp-- }`)
runs at most 10 times for the `frac ∈ [1, 0x3FF]` values it is ever given;
it is modelled with fuel 11.  In that branch Go's `uint32(exp)` conversion
of the negative `int16` wraps, modelled by `Int.emod _ (2^32)`.

`f32ValQ` is not from the source: it is the standard IEEE-754 binary32
value (as a rational) of a bit pattern, used to state precision claims.
It is meaningful for finite patterns (exponent field ≠ 255). -/

def float32ToF16Bits (bits : Nat) : Nat :=
  let sign := (bits >>> 31) &&& 1
  let exp : Int := (((bits >>> 23) &&& 255 : Nat) : Int) - 127 + 15
  let frac := (bits >>> 13) &&& 1023
  if exp ≤ 0 then sign <<< 15
  else if 31 ≤ exp then (sign <<< 15) ||| 31744
  else (sign <<< 15) ||| (exp.toNat <<< 10) ||| frac

def normSub : Nat → Nat → Int → Nat × Int
  | 0, frac, exp => (frac, exp)
  | fuel + 1, frac, exp =>
    if frac &&& 1024 = 0 then normSub fuel (frac <<< 1) (exp - 1) else (frac, exp)

def f16BitsToFloat32 (bits : Nat) : Nat :=
  let sign := (bits >>> 15) &&& 1
  let exp0 := (bits >>> 10) &&& 31
  let frac := bits &&& 1023
  if exp0 = 0 then
    if frac = 0 then sign <<< 31
    else
      let p := normSub 11 frac (-14)
      let frac2 := p.1 &&& 1023
      let expU := (Int.emod p.2 4294967296).toNat
      (sign <<< 31) ||| (expU <<< 23) % 4294967296 ||| (frac2 <<< 13)
  else if exp0 = 31 then
    if frac = 0 then (sign <<< 31) ||| 2139095040
    else (sign <<< 31) ||| 2143289344
  else
    (sign <<< 31) ||| (((exp0 : Int) - 15 + 127).toNat <<< 23) ||| (frac <<< 13)

def NewCompactPos (x y : Nat) : CompactPos :=
  ⟨float32ToF16Bits x, float32ToF16Bits y⟩

def CompactPos.XFloat (p : CompactPos) : Nat := f16BitsToFloat32 p.x

def CompactPos.YFloat (p : CompactPos) : Nat := f16BitsToFloat32 p.y

/-- The IEEE-754 binary32 value (as a rational) of the bit pattern `bits`.
Meaningful for finite patterns (exponent field less than 255). -/
def f32ValQ (bits : Nat) : ℚ :=
  let s : Nat := bits / 2 ^ 31 % 2
  let e : Nat := bits / 2 ^ 23 % 256
  let m : Nat := bits % 2 ^ 23
  let mag : ℚ :=
    if e = 0 then (m : ℚ) / 2 ^ 149
    else (((2 ^ 23 + m : Nat) : ℚ) * 2 ^ e) / 2 ^ 150
  if s = 1 then -mag else mag

/-- Go's `uint32(f)` conversion of the `float32` whose bit pattern is
`bits`; for a value outside `[0, 2^32)` the conversion is
implementation-specific in Go and is modelled as 0. -/
def uint32OfFloat32Bits (bits : Nat) : Nat :=
  if 0 ≤ f32ValQ bits ∧ f32ValQ bits < 4294967296 then (f32ValQ bits).floor.toNat
  else 0

/-! ## Touches/Judges session handlers (`src/server/session.go`)

`handleTouches`/`handleJudges` run for an authenticated session (the
dispatcher rejects everything but `Authenticate`/`Ping` before
authentication).  Both return early — emitting nothing and replying
nothing — when the user has no room or the room's `live` flag is unset;
the room *state* is not consulted.  An accepted `Touches` first stores
`uint32(frames[len(frames)-1].Time)` into the user's game time, then fans
the frames out through `BroadcastMonitors`; the handlers never send
anything to the session itself.  The model returns the game-time update
(if any) and the emits. -/

def handleTouches (disc : Nat → Bool) (uid : Nat) (room : Option RoomSt)
    (frames : List TouchFrame) : Option Nat × List Emit :=
  match room with
  | none => (none, [])
  | some r =>
    if ! r.live then (none, [])
    else
      ((if 0 < frames.length then
          some (uint32OfFloat32Bits ((frames.getD (frames.length - 1) ⟨0, []⟩).time))
        else none),
       [r.BroadcastMonitors disc (.touches uid frames)])

def handleJudges (disc : Nat → Bool) (uid : Nat) (room : Option RoomSt)
    (events : List JudgeEvent) : List Emit :=
  match room with
  | none => []
  | some r =>
    if ! r.live then []
    else [r.BroadcastMonitors disc (.judges uid events)]

/-- C6 (counterexample): the claim says `Touches`/`Judges` are accepted only
while the room is in state `Playing` (and live), but the handlers never
check the room state: a live room still in `SelectChart` has its frames
forwarded to the monitors. -/
theorem C6_state_gate_counterexample :
    ({ NewRoom 1 with live := true, monitorList := [7] } : RoomSt).state
        = .selectChart ∧
      handleTouches (fun _ => false) 1
        (some { NewRoom 1 with live := true, monitorList := [7] }) []
        = (none, [⟨[7], .touches 1 []⟩]) ∧
      handleJudges (fun _ => false) 1
        (some { NewRoom 1 with live := true, monitorList := [7] }) []
        = [⟨[7], .judges 1 []⟩] :=
  ⟨rfl, rfl, rfl⟩

/-- C6 (amended): a `Touches` or `Judges` command from an authenticated user
is accepted exactly when the user is in a room whose `live` flag is set (the
room state is not consulted); accepted frames are forwarded only to the
room's connected monitors — every recipient is on the monitor list, so
players, including the sender, receive nothing — an accepted `Touches` with
a non-empty frame list updates the user's last-frame game time to
`uint32` of the last frame's time, and neither handler produces any response
to the sender. -/
theorem C6_touches_judges_live_gate (disc : Nat → Bool) (uid : Nat)
    (room : Option RoomSt) (frames : List TouchFrame) (events : List JudgeEvent) :
    (room = none →
      handleTouches disc uid room frames = (none, []) ∧
      handleJudges disc uid room events = []) ∧
    (∀ r : RoomSt, room = some r → r.live = false →
      handleTouches disc uid room frames = (none, []) ∧
      handleJudges disc uid room events = []) ∧
    (∀ r : RoomSt, room = some r → r.live = true →
      handleTouches disc uid room frames =
        ((if 0 < frames.length then
            some (uint32OfFloat32Bits ((frames.getD (frames.length - 1) ⟨0, []⟩).time))
          else none),
         [⟨r.GetMonitors disc, .touches uid frames⟩]) ∧
      handleJudges disc uid room events = [⟨r.GetMonitors disc, .judges uid events⟩] ∧
      (∀ e ∈ (handleTouches disc uid room frames).2, ∀ v ∈ e.recipients,
        v ∈ r.monitorList) ∧
      (∀ e ∈ handleJudges disc uid room events, ∀ v ∈ e.recipients,
        v ∈ r.monitorList)) := by
  refine ⟨?_, ?_, ?_⟩
  · intro h
    subst h
    exact ⟨rfl, rfl⟩
  · intro r h hlive
    subst h
    simp [handleTouches, handleJudges, hlive]
  · intro r h hlive
    subst h
    refine ⟨?_, ?_, ?_, ?_⟩
    · simp [handleTouches, hlive, RoomSt.BroadcastMonitors]
    · simp [handleJudges, hlive, RoomSt.BroadcastMonitors]
    · intro e he v hv
      simp only [handleTouches, hlive, Bool.not_true, Bool.false_eq_true,
        if_false, List.mem_singleton] at he
      subst he
      exact (List.mem_filter.mp hv).1
    · intro e he v hv
      simp only [handleJudges, hlive, Bool.not_true, Bool.false_eq_true,
        if_false, List.mem_singleton] at he
      subst he
      exact (List.mem_filter.mp hv).1

theorem C6_touches_judges_live_gate_witness :
    handleTouches (fun _ => false) 1 none [] = (none, []) ∧
      handleJudges (fun _ => false) 1 none [] = [] :=
  (C6_touches_judges_live_gate (fun _ => false) 1 none [] []).1 rfl

/-! ## Dangle timeout (`src/server/user.go`)

`HandleDangleTimeout` runs when the 10-second timer armed by `Dangle`
fires.  The user-visible effect is on two pieces of user state: presence in
the server's users registry (`server.RemoveUser`) and the user's room
pointer (cleared by `OnUserLeave` via `user.SetRoom(nil)`).  `dangleMark`
holds the `*time.Timer`; it is non-nil whenever a timer was armed and not
cancelled by `SetSession` — in particular it is still non-nil inside the
firing callback itself, because firing does not clear the field. -/

structure UserDangleSt where
  inRegistry : Bool
  room : Option RoomSt
  dangleMark : Bool

def HandleDangleTimeout (st : UserDangleSt) : UserDangleSt :=
  match st.room with
  | some r =>
    if r.state = .playing then { st with inRegistry := false, room := none }
    else if st.dangleMark then st
    else { st with inRegistry := false, room := none }
  | none => st

/-- C4: Dangle expiry.  When the timer fires with no new session bound in
the meantime, `dangleMark` still holds the fired timer.  The `Playing`
branch removes the user and leaves the room as the claim says; but in every
other case the guard `if u.dangleMark != nil { return }` — meant to detect a
cancelled dangle — fires on the still-set mark and the handler returns
without removing the user from the registry or the room, contradicting the
claim (and the expectation of `TestSessionDangleTimeout`).  A user without a
room is never removed from the registry on this path either. -/
theorem C4_dangle_timeout_behavior :
    HandleDangleTimeout ⟨true, some { NewRoom 1 with state := .playing }, true⟩
        = ⟨false, none, true⟩ ∧
      HandleDangleTimeout ⟨true, some (NewRoom 1), true⟩
        = ⟨true, some (NewRoom 1), true⟩ ∧
      HandleDangleTimeout ⟨true, none, true⟩ = ⟨true, none, true⟩ :=
  ⟨rfl, rfl, rfl⟩

/-! ## Session teardown, rebinding, and the dangle timer
(`src/server/user.go` `SetSession`/`Dangle`, `src/server/session.go`
`handleDisconnect`)

A small transition system over the events that touch a user's dangle state:

* `dangle` — the old session's teardown path runs `User.Dangle()`
  (`handleDisconnect` calls it unconditionally whenever `s.User != nil`):
  any armed timer is stopped and a fresh 10-second timer is armed,
  `dangleMark` set;
* `bind` — `SetSession` on a new session: the session pointer is replaced
  and, if `dangleMark` is set, the timer is stopped and the mark cleared;
* `fire` — an armed timer elapses and runs `HandleDangleTimeout` (modelled
  here on the two flags `inRoom`/`roomPlaying`; `dangleMark` is still set
  inside the callback).

`fire` is only enabled while a timer is pending. -/

inductive UEvent where
  | dangle
  | bind
  | fire
deriving DecidableEq, Repr

structure SessSt where
  sessionIsNew : Bool
  timerPending : Bool
  dangleMark : Bool
  inRegistry : Bool
  inRoom : Bool
  roomPlaying : Bool
deriving DecidableEq, Repr

def stepU (st : SessSt) : UEvent → SessSt
  | .dangle => { st with timerPending := true, dangleMark := true }
  | .bind =>
    if st.dangleMark then
      { st with sessionIsNew := true, timerPending := false, dangleMark := false }
    else { st with sessionIsNew := true }
  | .fire =>
    if st.timerPending then
      let st1 := { st with timerPending := false }
      if st.inRoom ∧ st.roomPlaying then
        { st1 with inRegistry := false, inRoom := false }
      else if st1.dangleMark then st1
      else if st1.inRoom then { st1 with inRegistry := false, inRoom := false }
      else st1
    else st

def runU (st : SessSt) (evs : List UEvent) : SessSt := evs.foldl stepU st

/-- C5 (counterexample): the claim quantifies over any binding of the new
session strictly before the old session's dangle timer fires.  If the new
session is bound *before* the old session's teardown runs, `Dangle` arms a
fresh timer anyway (teardown never checks whether the user still references
the old session), nobody cancels it, and when it fires in a `Playing` room
the user is removed from the registry and the room. -/
theorem C5_reconnect_counterexample :
    (runU ⟨false, false, false, true, true, true⟩
        [.bind, .dangle, .fire]).inRegistry = false ∧
      (runU ⟨false, false, false, true, true, true⟩
        [.bind, .dangle, .fire]).inRoom = false := by
  constructor <;> rfl

/-- C5 (amended): if the new session is bound via `SetSession` after the old
session's teardown armed the dangle timer and strictly before that timer
fires, the user is never removed from the users registry nor from its room
as a consequence of the teardown: `SetSession` installs the new session
pointer and cancels the pending timer, so no later `fire` (and no further
`bind`) can remove the user, as long as no further teardown re-arms the
timer.  Binding before the teardown does not protect the user (see the
counterexample). -/
theorem C5_reconnect_preserves_membership (st0 : SessSt)
    (pre post : List UEvent) (hpost : UEvent.dangle ∉ post) :
    (runU st0 (pre ++ [.dangle, .bind] ++ post)).inRegistry
        = (runU st0 (pre ++ [.dangle, .bind])).inRegistry ∧
      (runU st0 (pre ++ [.dangle, .bind] ++ post)).inRoom
        = (runU st0 (pre ++ [.dangle, .bind])).inRoom ∧
      (runU st0 (pre ++ [.dangle, .bind])).inRegistry = (runU st0 pre).inRegistry ∧
      (runU st0 (pre ++ [.dangle, .bind])).inRoom = (runU st0 pre).inRoom ∧
      (runU st0 (pre ++ [.dangle, .bind])).sessionIsNew = true ∧
      (runU st0 (pre ++ [.dangle, .bind])).timerPending = false ∧
      (∀ st : SessSt, (stepU st .bind).sessionIsNew = true ∧
        ((stepU st .bind).dangleMark = true → False) ∧
        (st.dangleMark = true → (stepU st .bind).timerPending = false)) := by
  have hmid : runU st0 (pre ++ [.dangle, .bind])
      = stepU (stepU (runU st0 pre) .dangle) .bind := by
    rw [runU, List.foldl_append]
    rfl
  have hbindfacts : ∀ st : SessSt, (stepU st .bind).sessionIsNew = true ∧
      ((stepU st .bind).dangleMark = true → False) ∧
      (st.dangleMark = true → (stepU st .bind).timerPending = false) := by
    intro st
    by_cases hm : st.dangleMark
    · refine ⟨?_, ?_, ?_⟩ <;> simp [stepU, hm]
    · refine ⟨?_, ?_, ?_⟩ <;> simp [stepU, hm]
  have hmidfacts : (runU st0 (pre ++ [.dangle, .bind])).inRegistry
        = (runU st0 pre).inRegistry ∧
      (runU st0 (pre ++ [.dangle, .bind])).inRoom = (runU st0 pre).inRoom ∧
      (runU st0 (pre ++ [.dangle, .bind])).sessionIsNew = true ∧
      (runU st0 (pre ++ [.dangle, .bind])).timerPending = false := by
    rw [hmid]
    set p := runU st0 pre
    have hdang : stepU p .dangle
        = { p with timerPending := true, dangleMark := true } := rfl
    rw [hdang]
    refine ⟨?_, ?_, ?_, ?_⟩ <;> simp [stepU]
  have hrun : ∀ (evs : List UEvent) (st : SessSt), UEvent.dangle ∉ evs →
      st.timerPending = false →
      (runU st evs).inRegistry = st.inRegistry ∧
        (runU st evs).inRoom = st.inRoom ∧
        (runU st evs).timerPending = false := by
    intro evs
    induction evs with
    | nil => intro st _ hp; exact ⟨rfl, rfl, hp⟩
    | cons e rest ih =>
      intro st hne hp
      have hne2 : UEvent.dangle ∉ rest := fun h => hne (List.mem_cons_of_mem _ h)
      have hstep : (stepU st e).inRegistry = st.inRegistry ∧
          (stepU st e).inRoom = st.inRoom ∧ (stepU st e).timerPending = false := by
        cases e with
        | dangle => exact absurd (List.mem_cons_self _ _) hne
        | bind =>
          by_cases hm : st.dangleMark <;> simp [stepU, hm, hp]
        | fire => simp [stepU, hp]
      have := ih (stepU st e) hne2 hstep.2.2
      rw [runU, List.foldl_cons]
      refine ⟨?_, ?_, ?_⟩
      · rw [show (List.foldl stepU (stepU st e) rest) = runU (stepU st e) rest from rfl,
          this.1, hstep.1]
      · rw [show (List.foldl stepU (stepU st e) rest) = runU (stepU st e) rest from rfl,
          this.2.1, hstep.2.1]
      · rw [show (List.foldl stepU (stepU st e) rest) = runU (stepU st e) rest from rfl,
          this.2.2]
  have htail : (runU (runU st0 (pre ++ [.dangle, .bind])) post).inRegistry
        = (runU st0 (pre ++ [.dangle, .bind])).inRegistry ∧
      (runU (runU st0 (pre ++ [.dangle, .bind])) post).inRoom
        = (runU st0 (pre ++ [.dangle, .bind])).inRoom ∧
      (runU (runU st0 (pre ++ [.dangle, .bind])) post).timerPending = false :=
    hrun post _ hpost hmidfacts.2.2.2
  have hsplit : runU st0 (pre ++ [.dangle, .bind] ++ post)
      = runU (runU st0 (pre ++ [.dangle, .bind])) post := by
    rw [runU, runU, runU, List.foldl_append]
  exact ⟨by rw [hsplit]; exact htail.1, by rw [hsplit]; exact htail.2.1,
    hmidfacts.1, hmidfacts.2.1, hmidfacts.2.2.1, hmidfacts.2.2.2, hbindfacts⟩

theorem C5_reconnect_preserves_membership_witness :
    (runU ⟨false, false, false, true, true, true⟩
        ([] ++ [.dangle, .bind] ++ [.fire])).inRegistry
      = (runU ⟨false, false, false, true, true, true⟩
        ([] ++ [.dangle, .bind])).inRegistry :=
  (C5_reconnect_preserves_membership ⟨false, false, false, true, true, true⟩
    [] [.fire] (by decide)).1

/-! ## Evaluation lemmas for the half-precision converters

A finite `f32` bit pattern decomposes as `s * 2^31 + e * 2^23 + m` with
`s < 2`, `e < 256`, `m < 2^23`; the lemmas below evaluate
`float32ToF16Bits` / `f16BitsToFloat32` / `f32ValQ` on that shape. -/

theorem encode_flush (s e m : Nat) (hs : s < 2) (he : e ≤ 112) (hm : m < 8388608) :
    float32ToF16Bits (s * 2147483648 + e * 8388608 + m) = s * 32768 := by
  unfold float32ToF16Bits
  dsimp only
  have h1 : ((s * 2147483648 + e * 8388608 + m) >>> 31) &&& 1 = s := by
    rw [Nat.shiftRight_eq_div_pow, Nat.and_one_is_mod]
    norm_num
    omega
  have h2 : ((s * 2147483648 + e * 8388608 + m) >>> 23) &&& 255 = e := by
    rw [Nat.shiftRight_eq_div_pow, show (255 : Nat) = 2 ^ 8 - 1 from rfl,
      Nat.and_pow_two_sub_one_eq_mod]
    norm_num
    omega
  rw [h1, h2, if_pos (by omega)]
  rw [Nat.shiftLeft_eq]

theorem encode_normal (s e m : Nat) (hs : s < 2) (hlo : 113 ≤ e) (hhi : e ≤ 142)
    (hm : m < 8388608) :
    float32ToF16Bits (s * 2147483648 + e * 8388608 + m)
      = s * 32768 + (e - 112) * 1024 + m / 8192 := by
  unfold float32ToF16Bits
  dsimp only
  have h1 : ((s * 2147483648 + e * 8388608 + m) >>> 31) &&& 1 = s := by
    rw [Nat.shiftRight_eq_div_pow, Nat.and_one_is_mod]
    norm_num
    omega
  have h2 : ((s * 2147483648 + e * 8388608 + m) >>> 23) &&& 255 = e := by
    rw [Nat.shiftRight_eq_div_pow, show (255 : Nat) = 2 ^ 8 - 1 from rfl,
      Nat.and_pow_two_sub_one_eq_mod]
    norm_num
    omega
  have h3 : ((s * 2147483648 + e * 8388608 + m) >>> 13) &&& 1023 = m / 8192 := by
    rw [Nat.shiftRight_eq_div_pow, show (1023 : Nat) = 2 ^ 10 - 1 from rfl,
      Nat.and_pow_two_sub_one_eq_mod]
    norm_num
    omega
  rw [h1, h2, h3, if_neg (by omega), if_neg (by omega)]
  have h4 : (((e : Int) - 127 + 15).toNat) = e - 112 := by omega
  rw [h4]
  rw [Nat.shiftLeft_eq, Nat.shiftLeft_eq]
  have p10 : (2 : Nat) ^ 10 = 1024 := by norm_num
  have p15 : (2 : Nat) ^ 15 = 32768 := by norm_num
  have hb1 : (e - 112) * 2 ^ 10 < 2 ^ 15 := by rw [p10, p15]; omega
  rw [lor_pow_mul_eq_add s 15 hb1]
  have hcomb : s * 2 ^ 15 + (e - 112) * 2 ^ 10 = (s * 32 + (e - 112)) * 2 ^ 10 := by
    rw [p10, p15]
    omega
  rw [hcomb]
  have hb2 : m / 8192 < 2 ^ 10 := by rw [p10]; omega
  rw [lor_pow_mul_eq_add (s * 32 + (e - 112)) 10 hb2]
  rw [p10]
  omega

theorem decode_zero (s : Nat) (hs : s < 2) :
    f16BitsToFloat32 (s * 32768) = s * 2147483648 := by
  unfold f16BitsToFloat32
  dsimp only
  have h1 : ((s * 32768) >>> 15) &&& 1 = s := by
    rw [Nat.shiftRight_eq_div_pow, Nat.and_one_is_mod]
    norm_num
    omega
  have h2 : ((s * 32768) >>> 10) &&& 31 = 0 := by
    rw [Nat.shiftRight_eq_div_pow, show (31 : Nat) = 2 ^ 5 - 1 from rfl,
      Nat.and_pow_two_sub_one_eq_mod]
    norm_num
    omega
  have h3 : (s * 32768) &&& 1023 = 0 := by
    rw [show (1023 : Nat) = 2 ^ 10 - 1 from rfl, Nat.and_pow_two_sub_one_eq_mod]
    norm_num
    omega
  rw [h1, h2, h3, if_pos rfl, if_pos rfl, Nat.shiftLeft_eq]

theorem decode_normal (s E f : Nat) (hs : s < 2) (hElo : 1 ≤ E) (hEhi : E ≤ 30)
    (hf : f < 1024) :
    f16BitsToFloat32 (s * 32768 + E * 1024 + f)
      = s * 2147483648 + (E + 112) * 8388608 + f * 8192 := by
  unfold f16BitsToFloat32
  dsimp only
  have h1 : ((s * 32768 + E * 1024 + f) >>> 15) &&& 1 = s := by
    rw [Nat.shiftRight_eq_div_pow, Nat.and_one_is_mod]
    norm_num
    omega
  have h2 : ((s * 32768 + E * 1024 + f) >>> 10) &&& 31 = E := by
    rw [Nat.shiftRight_eq_div_pow, show (31 : Nat) = 2 ^ 5 - 1 from rfl,
      Nat.and_pow_two_sub_one_eq_mod]
    norm_num
    omega
  have h3 : (s * 32768 + E * 1024 + f) &&& 1023 = f := by
    rw [show (1023 : Nat) = 2 ^ 10 - 1 from rfl, Nat.and_pow_two_sub_one_eq_mod]
    norm_num
    omega
  rw [h1, h2, h3, if_neg (by omega), if_neg (by omega)]
  have h4 : (((E : Int) - 15 + 127).toNat) = E + 112 := by omega
  rw [h4]
  simp only [Nat.shiftLeft_eq]
  have p13 : (2 : Nat) ^ 13 = 8192 := by norm_num
  have p23 : (2 : Nat) ^ 23 = 8388608 := by norm_num
  have p31 : (2 : Nat) ^ 31 = 2147483648 := by norm_num
  have hb1 : (E + 112) * 2 ^ 23 < 2 ^ 31 := by rw [p23, p31]; omega
  rw [lor_pow_mul_eq_add s 31 hb1]
  have hcomb : s * 2 ^ 31 + (E + 112) * 2 ^ 23 = (s * 256 + (E + 112)) * 2 ^ 23 := by
    rw [p23, p31]
    omega
  rw [hcomb]
  have hb2 : f * 2 ^ 13 < 2 ^ 23 := by rw [p13, p23]; omega
  rw [lor_pow_mul_eq_add (s * 256 + (E + 112)) 23 hb2]
  rw [p13, p23]
  omega

theorem valQ_pattern (s e m : Nat) (hs : s < 2) (he : e < 256) (hm : m < 8388608) :
    f32ValQ (s * 2147483648 + e * 8388608 + m)
      = (if s = 1 then (-1 : ℚ) else 1) *
        (if e = 0 then (m : ℚ) / 2 ^ 149
         else (((2 ^ 23 + m : Nat) : ℚ) * 2 ^ e) / 2 ^ 150) := by
  unfold f32ValQ
  dsimp only
  have h1 : (s * 2147483648 + e * 8388608 + m) / 2 ^ 31 % 2 = s := by
    norm_num
    omega
  have h2 : (s * 2147483648 + e * 8388608 + m) / 2 ^ 23 % 256 = e := by
    norm_num
    omega
  have h3 : (s * 2147483648 + e * 8388608 + m) % 2 ^ 23 = m := by
    norm_num
    omega
  rw [h1, h2, h3]
  by_cases hs1 : s = 1 <;> by_cases he0 : e = 0 <;> simp [hs1, he0]

theorem abs_signed (s : Nat) (x : ℚ) (hx : 0 ≤ x) :
    |(if s = 1 then (-1 : ℚ) else 1) * x| = x := by
  by_cases h : s = 1 <;> simp [h, abs_of_nonneg hx]

theorem abs_signed_sub (s : Nat) (x y : ℚ) :
    |(if s = 1 then (-1 : ℚ) else 1) * x - (if s = 1 then (-1 : ℚ) else 1) * y|
      = |x - y| := by
  by_cases h : s = 1
  · simp only [h, if_pos]
    rw [show (-1 : ℚ) * x - (-1 : ℚ) * y = -(x - y) by ring, abs_neg]
  · simp only [h, if_neg, if_false]
    rw [one_mul, one_mul]

theorem half_round_small (s e m : Nat) (hs : s < 2) (he : e ≤ 112)
    (hm : m < 8388608) :
    |f32ValQ (f16BitsToFloat32 (float32ToF16Bits (s * 2147483648 + e * 8388608 + m)))
      - f32ValQ (s * 2147483648 + e * 8388608 + m)| ≤ 1 / 100 := by
  rw [encode_flush s e m hs he hm, decode_zero s hs]
  have hv0 : f32ValQ (s * 2147483648) = 0 := by
    have h := valQ_pattern s 0 0 hs (by norm_num) (by norm_num)
    rw [if_pos rfl, Nat.cast_zero, zero_div, mul_zero] at h
    simp only [Nat.zero_mul, Nat.add_zero] at h
    exact h
  rw [hv0, zero_sub, abs_neg]
  rw [valQ_pattern s e m hs (by omega) hm]
  rw [abs_signed _ _ (by split_ifs <;> positivity)]
  by_cases he0 : e = 0
  · rw [if_pos he0]
    rw [div_le_div_iff (by positivity) (by norm_num)]
    have hm2 : (m : ℚ) ≤ 8388608 := by exact_mod_cast Nat.le_of_lt hm
    calc (m : ℚ) * 100 ≤ 8388608 * 100 := by
          exact mul_le_mul_of_nonneg_right hm2 (by norm_num)
      _ ≤ 1 * 2 ^ 149 := by norm_num
  · rw [if_neg he0]
    rw [div_le_div_iff (by positivity) (by norm_num)]
    have hN : (2 ^ 23 + m) * 2 ^ e * 100 ≤ 2 ^ 150 := by
      calc (2 ^ 23 + m) * 2 ^ e * 100 ≤ 2 ^ 24 * 2 ^ 112 * 100 := by
            apply Nat.mul_le_mul _ (le_refl 100)
            exact Nat.mul_le_mul (by omega) (Nat.pow_le_pow_right (by norm_num) he)
        _ ≤ 2 ^ 150 := by norm_num
    calc ((2 ^ 23 + m : Nat) : ℚ) * 2 ^ e * 100
        = (((2 ^ 23 + m) * 2 ^ e * 100 : Nat) : ℚ) := by push_cast; ring
      _ ≤ ((2 ^ 150 : Nat) : ℚ) := by exact_mod_cast hN
      _ = 1 * 2 ^ 150 := by push_cast; ring

theorem half_round_mid (s e m : Nat) (hs : s < 2) (hlo : 113 ≤ e) (hhi : e ≤ 131)
    (hm : m < 8388608) (h131 : e = 131 → m = 0) :
    |f32ValQ (f16BitsToFloat32 (float32ToF16Bits (s * 2147483648 + e * 8388608 + m)))
      - f32ValQ (s * 2147483648 + e * 8388608 + m)| ≤ 1 / 100 := by
  rw [encode_normal s e m hs hlo (by omega) hm]
  have hdec := decode_normal s (e - 112) (m / 8192) hs (by omega) (by omega) (by omega)
  rw [show e - 112 + 112 = e by omega] at hdec
  rw [hdec]
  rw [valQ_pattern s e (m / 8192 * 8192) hs (by omega)
      (lt_of_le_of_lt (Nat.div_mul_le_self m 8192) hm),
    valQ_pattern s e m hs (by omega) hm]
  rw [abs_signed_sub]
  have h0 : ¬ e = 0 := by omega
  rw [if_neg h0, if_neg h0]
  rw [div_sub_div_same, ← sub_mul]
  have hAB : ((2 ^ 23 + m / 8192 * 8192 : Nat) : ℚ) - ((2 ^ 23 + m : Nat) : ℚ)
      = -(((m % 8192 : Nat) : ℚ)) := by
    have hsplit : m / 8192 * 8192 + m % 8192 = m := by omega
    have hcast : ((m / 8192 * 8192 : Nat) : ℚ) + ((m % 8192 : Nat) : ℚ) = (m : ℚ) := by
      exact_mod_cast congrArg (fun n : Nat => (n : ℚ)) hsplit
    push_cast at hcast ⊢
    linarith
  rw [hAB, neg_mul, neg_div, abs_neg]
  rw [abs_of_nonneg (by positivity)]
  by_cases h31 : e = 131
  · have : m = 0 := h131 h31
    subst this
    simp
  · have he130 : e ≤ 130 := by omega
    rw [div_le_div_iff (by positivity) (by norm_num)]
    have hN : m % 8192 * 2 ^ e * 100 ≤ 2 ^ 150 := by
      calc m % 8192 * 2 ^ e * 100 ≤ 8192 * 2 ^ 130 * 100 := by
            apply Nat.mul_le_mul _ (le_refl 100)
            exact Nat.mul_le_mul (Nat.le_of_lt (Nat.mod_lt _ (by norm_num)))
              (Nat.pow_le_pow_right (by norm_num) he130)
        _ ≤ 2 ^ 150 := by norm_num
    calc ((m % 8192 : Nat) : ℚ) * 2 ^ e * 100
        = ((m % 8192 * 2 ^ e * 100 : Nat) : ℚ) := by push_cast; ring
      _ ≤ ((2 ^ 150 : Nat) : ℚ) := by exact_mod_cast hN
      _ = 1 * 2 ^ 150 := by push_cast; ring

theorem half_round_error_le (b : Nat) (hb : b < 4294967296)
    (hfin : b / 8388608 % 256 ≠ 255) (hle : |f32ValQ b| ≤ 16) :
    |f32ValQ (f16BitsToFloat32 (float32ToF16Bits b)) - f32ValQ b| ≤ 1 / 100 := by
  obtain ⟨s, e, m, hs, he, hm, rfl⟩ :
      ∃ s e m, s < 2 ∧ e < 256 ∧ m < 8388608 ∧
        b = s * 2147483648 + e * 8388608 + m :=
    ⟨b / 2147483648, b / 8388608 % 256, b % 8388608, by omega, by omega, by omega,
      by omega⟩
  have hee : (s * 2147483648 + e * 8388608 + m) / 8388608 % 256 = e := by omega
  rw [hee] at hfin
  by_cases hsmall : e ≤ 112
  · exact half_round_small s e m hs hsmall hm
  · have hlo : 113 ≤ e := by omega
    rw [valQ_pattern s e m hs he hm] at hle
    rw [abs_signed _ _ (by split_ifs <;> positivity)] at hle
    rw [if_neg (by omega)] at hle
    rw [div_le_iff (by positivity)] at hle
    have hNat : (2 ^ 23 + m) * 2 ^ e ≤ 2 ^ 154 := by
      have h1 : ((2 ^ 23 + m : Nat) : ℚ) * 2 ^ e = (((2 ^ 23 + m) * 2 ^ e : Nat) : ℚ) := by
        push_cast
        ring
      rw [h1] at hle
      have h2 : (16 : ℚ) * 2 ^ 150 = ((2 ^ 154 : Nat) : ℚ) := by push_cast; ring
      rw [h2] at hle
      exact_mod_cast hle
    have he131 : e ≤ 131 := by
      by_contra hgt
      push_neg at hgt
      have h1 : (2 : Nat) ^ 155 ≤ (2 ^ 23 + m) * 2 ^ e := by
        calc (2 : Nat) ^ 155 = 2 ^ 23 * 2 ^ 132 := by norm_num
          _ ≤ (2 ^ 23 + m) * 2 ^ e :=
            Nat.mul_le_mul (by omega) (Nat.pow_le_pow_right (by norm_num) hgt)
      have h2 : (2 : Nat) ^ 155 ≤ 2 ^ 154 := le_trans h1 hNat
      norm_num at h2
    have h131 : e = 131 → m = 0 := by
      intro h31
      subst h31
      have h2 : (2 ^ 23 + m) * 2 ^ 131 ≤ 2 ^ 23 * 2 ^ 131 := by
        calc (2 ^ 23 + m) * 2 ^ 131 ≤ 2 ^ 154 := hNat
          _ = 2 ^ 23 * 2 ^ 131 := by norm_num
      have h3 := Nat.le_of_mul_le_mul_right h2 (by positivity)
      omega
    exact half_round_mid s e m hs hlo he131 hm h131

/-- C9 (counterexample): the claim bounds the CompactPos round-trip error by
0.01 on all of `[−1e4, 1e4]`, but the half-precision format has an ulp of 8
at magnitude ~10⁴ and the converter truncates: the `float32` 9999.0 (bit
pattern 1176255488) is within the claimed domain yet round-trips to 9992.0,
an error of 7. -/
theorem C9_precision_counterexample :
    f32ValQ 1176255488 = 9999 ∧
      |f32ValQ 1176255488| ≤ 10000 ∧
      (1 : ℚ) / 100 <
        |f32ValQ (CompactPos.XFloat (NewCompactPos 1176255488 1176255488))
          - f32ValQ 1176255488| := by
  refine ⟨by norm_num [f32ValQ], by norm_num [f32ValQ], ?_⟩
  have h1 : CompactPos.XFloat (NewCompactPos 1176255488 1176255488)
      = f16BitsToFloat32 (float32ToF16Bits 1176255488) := rfl
  rw [h1]
  have h2 : float32ToF16Bits 1176255488 = 28897 := by decide
  rw [h2]
  have h3 : f16BitsToFloat32 28897 = 1176248320 := by decide
  rw [h3]
  norm_num [f32ValQ]

/-- C9 (amended): for every pair of finite `float32` values whose magnitude
is at most 16, converting each coordinate to IEEE-754 half-precision bits
and back (one `CompactPos` encode/decode round) changes each coordinate by
at most 0.01.  (Beyond magnitude 16 the half-precision spacing exceeds 0.02
and the truncating converter can err by far more — see the
counterexample.) -/
theorem C9_compact_pos_precision (x y : Nat)
    (hx : x < 4294967296) (hy : y < 4294967296)
    (hfinx : x / 8388608 % 256 ≠ 255) (hfiny : y / 8388608 % 256 ≠ 255)
    (hlex : |f32ValQ x| ≤ 16) (hley : |f32ValQ y| ≤ 16) :
    |f32ValQ (CompactPos.XFloat (NewCompactPos x y)) - f32ValQ x| ≤ 1 / 100 ∧
      |f32ValQ (CompactPos.YFloat (NewCompactPos x y)) - f32ValQ y| ≤ 1 / 100 :=
  ⟨half_round_error_le x hx hfinx hlex, half_round_error_le y hy hfiny hley⟩

theorem C9_compact_pos_precision_witness :
    |f32ValQ (CompactPos.XFloat (NewCompactPos 1069547520 1069547520))
        - f32ValQ 1069547520| ≤ 1 / 100 :=
  (C9_compact_pos_precision 1069547520 1069547520 (by norm_num) (by norm_num)
    (by norm_num) (by norm_num)
    (by rw [show f32ValQ 1069547520 = 3 / 2 by norm_num [f32ValQ], abs_le]
        constructor <;> norm_num)
    (by rw [show f32ValQ 1069547520 = 3 / 2 by norm_num [f32ValQ], abs_le]
        constructor <;> norm_num)).1

end PhiraMP
